import Mathlib

/-!
# Verification development for the Terraform AWS credential proxy (`main.go`)

The program is a small HTTP service that answers every `GET` with the
credentials of the AWS provider chain, rendered as an EC2-metadata style JSON
document.  The embedding below follows `main.go` declaration by declaration:

* the environment-variable shim of `main` (lines 46-48),
* `AwsEc2MetadataCredential` and `getCredentials` (lines 91-134),
* the route registered on the `mux` router and its handler (lines 50-55),
* the shutdown sequence of `main` (lines 75-88).

The library calls made by `main.go` (Go's `time`, `os`, `encoding/json`,
`net/http`, gorilla `mux` and the AWS SDK session) are modelled by the
behaviour their documentation fixes; results of the outside world (the provider
chain, the wall clock) are inputs of the model.
-/

namespace CredProxy

/-! ## Go's `time` package: instants, zones and the RFC 3339 layout -/

/-- A span of time in nanoseconds, as `time.Duration`. -/
abbrev Duration := Int

/-- One second, `time.Second`. -/
def Second : Duration := 1000000000

/-- One minute, `time.Minute`. -/
def Minute : Duration := 60 * Second

/-- A time zone, `*time.Location`: `lookup s` is the offset in seconds east of
UTC in effect at the Unix second `s`. -/
structure Location where
  lookup : Int → Int

/-- The zone `time.UTC`. -/
def UTC : Location := ⟨fun _ => 0⟩

/-- A zone with one fixed offset, `time.FixedZone`. -/
def FixedZone (offset : Int) : Location := ⟨fun _ => offset⟩

/-- An instant with nanosecond precision in a zone, `time.Time`: whole seconds
since January 1, 1970 UTC, the nanoseconds within that second, and the zone the
instant is presented in. -/
structure Time where
  unixSec : Int
  nsec : Fin 1000000000
  loc : Location

/-- The instant as nanoseconds since the Unix epoch, `Time.UnixNano` (without
the 64-bit wrap of the Go result). -/
def Time.UnixNano (t : Time) : Int := t.unixSec * 1000000000 + t.nsec.val

/-- The zone offset in effect at the instant, second result of `Time.Zone`. -/
def Time.offset (t : Time) : Int := t.loc.lookup t.unixSec

/-- The method `Time.Add`: the seconds and the nanoseconds of `d` are added
separately (Go's `/` and `%` truncate toward zero) and the nanoseconds are
carried back into `[0, 1e9)`; the zone is kept. -/
def Time.Add (t : Time) (d : Duration) : Time :=
  let dsec := d.tdiv 1000000000
  let nsec : Int := (t.nsec.val : Int) + d.tmod 1000000000
  if h1 : 1000000000 ≤ nsec then
    { unixSec := t.unixSec + (dsec + 1)
      nsec := ⟨(nsec - 1000000000).toNat, by
        have h2 := Int.tmod_lt_of_pos d (b := 1000000000) (by decide)
        have h3 := t.nsec.isLt
        omega⟩
      loc := t.loc }
  else if h2 : nsec < 0 then
    { unixSec := t.unixSec + (dsec - 1)
      nsec := ⟨(nsec + 1000000000).toNat, by omega⟩
      loc := t.loc }
  else
    { unixSec := t.unixSec + dsec
      nsec := ⟨nsec.toNat, by omega⟩
      loc := t.loc }

/-- Seconds from January 1, year 1 to January 1, 1970: `unixToInternal`. -/
def unixToInternal : Int := 62135596800

/-- Seconds from the absolute zero year -292277022399 to year 1:
`internalToAbsolute`. -/
def internalToAbsolute : Int := 9223371966579724800

/-- The year whose January 1 is second 0 of the absolute count. -/
def absoluteZeroYear : Int := -292277022399

def secondsPerDay : Nat := 86400
def daysPer400Years : Nat := 146097
def daysPer100Years : Nat := 36524
def daysPer4Years : Nat := 1461

/-- The method `Time.abs`: local seconds since the absolute zero year, as an
unsigned 64-bit count. -/
def Time.abs (t : Time) : Nat :=
  ((t.unixSec + t.offset + (unixToInternal + internalToAbsolute)) % 18446744073709551616).toNat

/-- The function `isLeap` of the proleptic Gregorian calendar. -/
def isLeap (year : Int) : Bool :=
  year % 4 == 0 && (year % 100 != 0 || year % 400 == 0)

/-- The table `daysBefore`: days in a non-leap year before month `m + 1`. -/
def daysBefore : Nat → Nat
  | 0 => 0
  | 1 => 31
  | 2 => 59
  | 3 => 90
  | 4 => 120
  | 5 => 151
  | 6 => 181
  | 7 => 212
  | 8 => 243
  | 9 => 273
  | 10 => 304
  | 11 => 334
  | _ => 365

/-- A calendar date as `absDate` returns it. -/
structure Date where
  year : Int
  month : Nat
  day : Nat
  deriving DecidableEq, Repr

/-- Month and day of month from the zero-based day of the year, the second half
of `absDate`. -/
def monthDay (leap : Bool) (yday : Nat) : Nat × Nat :=
  if leap && yday == 31 + 29 - 1 then (2, 29)
  else
    let day := if leap && yday > 31 + 29 - 1 then yday - 1 else yday
    let month := day / 31
    let en := daysBefore (month + 1)
    if day ≥ en then (month + 2, day - en + 1)
    else (month + 1, day - daysBefore month + 1)

/-- The first half of `absDate`: from a count of days since the absolute zero
year, the years elapsed and the zero-based day of the year, by cutting off
400-year, 100-year, 4-year and 1-year cycles. -/
def yearDay (d : Nat) : Nat × Nat :=
  let n400 := d / daysPer400Years
  let d1 := d - daysPer400Years * n400
  let n100 := d1 / daysPer100Years
  let n100 := n100 - n100 / 4
  let d2 := d1 - daysPer100Years * n100
  let n4 := d2 / daysPer4Years
  let d3 := d2 - daysPer4Years * n4
  let n1 := d3 / 365
  let n1 := n1 - n1 / 4
  let yday := d3 - 365 * n1
  (400 * n400 + 100 * n100 + 4 * n4 + n1, yday)

/-- The function `absDate` (with `full` set): the date of an absolute second
count. -/
def absDate (abs : Nat) : Date :=
  let yd := yearDay (abs / secondsPerDay)
  let year : Int := (yd.1 : Int) + absoluteZeroYear
  let md := monthDay (isLeap year) yd.2
  { year := year, month := md.1, day := md.2 }

/-- The method `Time.Year`. -/
def Time.Year (t : Time) : Int := (absDate t.abs).year

/-- The decimal digits of `u`, most significant first; `fuel` bounds the number
of digits produced. -/
def decimalDigits : Nat → Nat → List Char
  | 0, u => [Char.ofNat (48 + u % 10)]
  | fuel + 1, u =>
    if u < 10 then [Char.ofNat (48 + u)]
    else decimalDigits fuel (u / 10) ++ [Char.ofNat (48 + u % 10)]

/-- The function `appendInt`: the decimal form of `x`, zero-padded to `width`
digits, after a minus sign when `x` is negative. -/
def appendInt (x : Int) (width : Nat) : List Char :=
  let u := x.natAbs
  let ds := decimalDigits u u
  (if x < 0 then ['-'] else []) ++ List.replicate (width - ds.length) '0' ++ ds

/-- The zone suffix of the layout element `Z07:00`: `Z` for UTC, otherwise the
sign and the hours and minutes of the offset (its seconds are dropped). -/
def formatZone (offset : Int) : List Char :=
  if offset = 0 then ['Z']
  else
    let zone := offset.tdiv 60
    let sign := if zone < 0 then '-' else '+'
    let zone := zone.natAbs
    sign :: (appendInt (zone / 60 : Nat) 2 ++ ':' :: appendInt (zone % 60 : Nat) 2)

/-- The characters of `t.Format(time.RFC3339)`, layout
`2006-01-02T15:04:05Z07:00`: date and clock of the local time to the whole
second, then the zone. -/
def formatRFC3339Chars (t : Time) : List Char :=
  let abs := t.abs
  let date := absDate abs
  let clock := abs % secondsPerDay
  appendInt date.year 4 ++ '-' :: appendInt date.month 2 ++ '-' :: appendInt date.day 2
    ++ 'T' :: appendInt (clock / 3600 : Nat) 2 ++ ':' :: appendInt (clock % 3600 / 60 : Nat) 2
    ++ ':' :: appendInt (clock % 60 : Nat) 2 ++ formatZone t.offset

/-- The call `t.Format(time.RFC3339)`. -/
def Time.FormatRFC3339 (t : Time) : String := String.mk (formatRFC3339Chars t)

/-! ## Reading an RFC 3339 timestamp (RFC 3339, section 5.6)

The reader below is the specification side of the timestamp claims: it fixes
which strings are RFC 3339 `date-time`s and which instant each one denotes. -/

/-- The value of a decimal digit character. -/
def digitVal (c : Char) : Option Nat :=
  if 48 ≤ c.toNat ∧ c.toNat ≤ 57 then some (c.toNat - 48) else none

/-- Read exactly `n` decimal digits; the result is their value and the rest of
the input. -/
def takeDigits : Nat → List Char → Option (Nat × List Char)
  | 0, cs => some (0, cs)
  | _ + 1, [] => none
  | n + 1, c :: cs =>
    match digitVal c, takeDigits n cs with
    | some d, some (v, rest) => some (d * 10 ^ n + v, rest)
    | _, _ => none

/-- Read one given character, in either of two spellings. -/
def expectChar (c1 c2 : Char) : List Char → Option (List Char)
  | d :: cs => if d = c1 ∨ d = c2 then some cs else none
  | [] => none

/-- Nanoseconds denoted by the digits of a `time-secfrac`; digits beyond the
ninth are below the resolution and dropped. -/
def fracNanos (ds : List Char) : Nat :=
  ((ds.take 9).foldl (fun acc c => acc * 10 + (digitVal c).getD 0) 0) * 10 ^ (9 - (ds.take 9).length)

/-- Read an optional `time-secfrac`: a dot and at least one digit. -/
def takeFraction : List Char → Option (Nat × List Char)
  | '.' :: cs =>
    let ds := cs.takeWhile (fun c => (digitVal c).isSome)
    if ds.isEmpty then none
    else some (fracNanos ds, cs.dropWhile (fun c => (digitVal c).isSome))
  | cs => some (0, cs)

/-- Read a `time-offset` that ends the input: `Z`, or a sign, two digits of
hours (00-23), a colon and two digits of minutes (00-59). The result is in
seconds east of UTC. -/
def parseZone : List Char → Option Int
  | [c] => if c = 'Z' ∨ c = 'z' then some 0 else none
  | s :: cs =>
    match takeDigits 2 cs with
    | some (hh, ':' :: cs1) =>
      match takeDigits 2 cs1 with
      | some (mm, []) =>
        if hh ≤ 23 ∧ mm ≤ 59 then
          if s = '+' then some ((hh * 3600 + mm * 60 : Nat) : Int)
          else if s = '-' then some (-((hh * 3600 + mm * 60 : Nat) : Int))
          else none
        else none
      | _ => none
    | _ => none
  | [] => none

/-- Days in the years `0 .. y - 1` of the proleptic Gregorian calendar. -/
def daysBeforeYear (y : Nat) : Nat :=
  365 * y + (y + 3) / 4 - (y + 99) / 100 + (y + 399) / 400

/-- Length of month `m` (1-12) in a year. -/
def daysIn (year : Nat) (m : Nat) : Nat :=
  if m = 2 ∧ isLeap year then 29 else daysBefore m - daysBefore (m - 1)

/-- Days from 1970-01-01 to the given calendar date. -/
def daysSinceEpoch (year month day : Nat) : Int :=
  ((daysBeforeYear year + daysBefore (month - 1)
      + (if isLeap year ∧ 3 ≤ month then 1 else 0) + (day - 1) : Nat) : Int) - 719528

/-- Read an RFC 3339 `date-time`; the result is the instant it denotes, in
nanoseconds since 1970-01-01T00:00:00Z. Strings that are not a `date-time`
(a field out of range, a year of other than four digits, trailing text) give
`none`. The leap second `:60` has no Unix instant and is refused. -/
def parseRFC3339Chars (cs : List Char) : Option Int :=
  match takeDigits 4 cs with
  | some (year, '-' :: cs) =>
    match takeDigits 2 cs with
    | some (month, '-' :: cs) =>
      match takeDigits 2 cs with
      | some (day, cs) =>
        match expectChar 'T' 't' cs with
        | some cs =>
          match takeDigits 2 cs with
          | some (hour, ':' :: cs) =>
            match takeDigits 2 cs with
            | some (minute, ':' :: cs) =>
              match takeDigits 2 cs with
              | some (second, cs) =>
                match takeFraction cs with
                | some (nanos, cs) =>
                  match parseZone cs with
                  | some offset =>
                    if 1 ≤ month ∧ month ≤ 12 ∧ 1 ≤ day ∧ day ≤ daysIn year month
                        ∧ hour ≤ 23 ∧ minute ≤ 59 ∧ second ≤ 59 then
                      some (((daysSinceEpoch year month day * 86400
                          + ((hour * 3600 + minute * 60 + second : Nat) : Int)) - offset)
                        * 1000000000 + (nanos : Int))
                    else none
                  | none => none
                | none => none
              | none => none
            | _ => none
          | _ => none
        | none => none
      | none => none
    | _ => none
  | _ => none

/-- The instant denoted by a string read as an RFC 3339 timestamp, in
nanoseconds since the Unix epoch; `none` when the string is not one. -/
def parseRFC3339 (s : String) : Option Int := parseRFC3339Chars s.data

/-- The times an RFC 3339 timestamp can express: the local date lies in the
years 0000 through 9999, and the zone offset is a whole number of minutes, less
than a day either way. -/
def Time.inRFC3339Range (t : Time) : Prop :=
  -62167219200 ≤ t.unixSec + t.offset ∧ t.unixSec + t.offset ≤ 253402300799 ∧
    t.offset % 60 = 0 ∧ -86400 < t.offset ∧ t.offset < 86400

instance (t : Time) : Decidable t.inRFC3339Range := by
  unfold Time.inRFC3339Range
  exact inferInstance

/-! ## The process environment and the alias shim of `main` (lines 43-48) -/

/-- The process environment: the value of each variable that is set. -/
abbrev Env := String → Option String

/-- The call `os.Getenv`: the value of the variable, empty when it is unset. -/
def Getenv (e : Env) (key : String) : String := (e key).getD ""

/-- The call `os.Setenv` for a well-formed key and value (the shim passes a
literal key and a value it has just read from the environment, so the error
return of `Setenv`, which `main` ignores, does not arise). -/
def Setenv (e : Env) (key value : String) : Env :=
  fun k => if k = key then some value else e k

/-- Lines 46-48 of `main`: when `AWS_CRED_CONTAINER_RELATIVE_URI` is set to a
non-empty value, that value is stored under
`AWS_CONTAINER_CREDENTIALS_RELATIVE_URI`. -/
def envShim (e : Env) : Env :=
  let containerUri := Getenv e "AWS_CRED_CONTAINER_RELATIVE_URI"
  if containerUri ≠ "" then Setenv e "AWS_CONTAINER_CREDENTIALS_RELATIVE_URI" containerUri
  else e

/-! ## Go strings

A Go `string` is a sequence of bytes, not necessarily valid UTF-8. The values
that come from outside the program (the credentials of the provider chain) are
modelled as such; the values the program itself produces from literals and
from `Format` are text and are modelled by Lean strings. -/

/-- A Go `string`: any sequence of bytes. -/
structure GoString where
  bytes : List (Fin 256)
  deriving DecidableEq, Repr

/-- The UTF-8 encoding of one character, as `utf8.AppendRune` writes it. -/
def utf8EncodeChar (c : Char) : List (Fin 256) :=
  let v := c.toNat
  if v < 0x80 then [Fin.ofNat v]
  else if v < 0x800 then [Fin.ofNat (0xC0 + v / 64), Fin.ofNat (0x80 + v % 64)]
  else if v < 0x10000 then
    [Fin.ofNat (0xE0 + v / 4096), Fin.ofNat (0x80 + v / 64 % 64), Fin.ofNat (0x80 + v % 64)]
  else
    [Fin.ofNat (0xF0 + v / 262144), Fin.ofNat (0x80 + v / 4096 % 64),
     Fin.ofNat (0x80 + v / 64 % 64), Fin.ofNat (0x80 + v % 64)]

/-- The UTF-8 encoding of a sequence of characters. -/
def utf8Encode : List Char → List (Fin 256)
  | [] => []
  | c :: cs => utf8EncodeChar c ++ utf8Encode cs

/-- The Go string that holds a text: its UTF-8 encoding. -/
def GoString.ofString (s : String) : GoString := { bytes := utf8Encode s.data }

instance : Coe String GoString := ⟨GoString.ofString⟩

/-- The function `utf8.DecodeRuneInString` on a non-empty input: the first
character and the bytes after it, or `none` where Go returns
`(RuneError, 1)`: the first byte does not start a valid encoding (a
continuation byte, an overlong or surrogate encoding, a value above U+10FFFF,
or an encoding cut short). -/
def decodeRune : List (Fin 256) → Option (Char × List (Fin 256))
  | [] => none
  | b0 :: rest =>
    if b0.val < 0x80 then some (Char.ofNat b0.val, rest)
    else if 0xC2 ≤ b0.val ∧ b0.val ≤ 0xDF then
      match rest with
      | b1 :: rest1 =>
        if 0x80 ≤ b1.val ∧ b1.val ≤ 0xBF then
          some (Char.ofNat ((b0.val - 0xC0) * 64 + (b1.val - 0x80)), rest1)
        else none
      | [] => none
    else if 0xE0 ≤ b0.val ∧ b0.val ≤ 0xEF then
      match rest with
      | b1 :: b2 :: rest2 =>
        if (if b0.val = 0xE0 then 0xA0 else 0x80) ≤ b1.val
            ∧ b1.val ≤ (if b0.val = 0xED then 0x9F else 0xBF)
            ∧ 0x80 ≤ b2.val ∧ b2.val ≤ 0xBF then
          some (Char.ofNat (((b0.val - 0xE0) * 64 + (b1.val - 0x80)) * 64 + (b2.val - 0x80)),
            rest2)
        else none
      | _ => none
    else if 0xF0 ≤ b0.val ∧ b0.val ≤ 0xF4 then
      match rest with
      | b1 :: b2 :: b3 :: rest3 =>
        if (if b0.val = 0xF0 then 0x90 else 0x80) ≤ b1.val
            ∧ b1.val ≤ (if b0.val = 0xF4 then 0x8F else 0xBF)
            ∧ 0x80 ≤ b2.val ∧ b2.val ≤ 0xBF ∧ 0x80 ≤ b3.val ∧ b3.val ≤ 0xBF then
          some (Char.ofNat ((((b0.val - 0xF0) * 64 + (b1.val - 0x80)) * 64
            + (b2.val - 0x80)) * 64 + (b3.val - 0x80)), rest3)
        else none
      | _ => none
    else none

/-- The characters of a sequence of bytes, as the conversion `[]rune(s)` gives
them: each valid sequence reads as its character, each byte that starts none
reads as U+FFFD (`utf8.RuneError`) on its own. The first argument bounds the
number of steps; the length of the sequence is enough. -/
def runesOf : Nat → List (Fin 256) → List Char
  | 0, _ => []
  | _ + 1, [] => []
  | fuel + 1, b :: rest =>
    match decodeRune (b :: rest) with
    | some (c, rest1) => c :: runesOf fuel rest1
    | none => Char.ofNat 0xFFFD :: runesOf fuel rest

/-- The text of a Go string, `string([]rune(s))`: the string itself when it is
valid UTF-8, and otherwise the string with each offending byte replaced by
U+FFFD. -/
def GoString.toText (g : GoString) : String := String.mk (runesOf g.bytes.length g.bytes)

/-! ## The AWS SDK session, as far as `getCredentials` uses it -/

/-- An error value (`error`), kept as its message. -/
abbrev Error := String

/-- The type `session.SharedConfigState`. -/
inductive SharedConfigState where
  | SharedConfigStateFromEnv
  | SharedConfigDisable
  | SharedConfigEnable
  deriving DecidableEq, Repr

/-- The part of `aws.Config` that `getCredentials` sets. -/
structure Config where
  CredentialsChainVerboseErrors : Bool
  deriving DecidableEq, Repr

/-- The type `session.Options`. -/
structure Options where
  Config : Config
  SharedConfigState : SharedConfigState
  deriving DecidableEq, Repr

/-- The type `credentials.Value`. -/
structure Value where
  AccessKeyID : GoString
  SecretAccessKey : GoString
  SessionToken : GoString
  ProviderName : GoString
  deriving DecidableEq, Repr

/-- The provider chain of a session (`sess.Config.Credentials`), given by what
its two calls return: `Get()`, and `ExpiresAt()` made after it. -/
structure Credentials where
  Get : Except Error Value
  ExpiresAt : Except Error Time

/-- A session, `*session.Session`. -/
structure Session where
  Credentials : Credentials

/-- The outside world of one `getCredentials` call: what building a session
with given options yields, and the successive readings of the wall clock
(`Now n` is the reading of the `n`-th call of `time.Now` so far). -/
structure World where
  NewSessionWithOptions : Options → Except Error Session
  Now : Nat → Time

/-- A call that leaves the program. -/
inductive Effect where
  | newSession (opts : Options)
  | get
  | expiresAt
  | now
  deriving DecidableEq, Repr

/-- The state threaded through the program: how often the clock has been read
and the calls made so far, oldest first. -/
structure State where
  clockReads : Nat
  trace : List Effect
  deriving DecidableEq, Repr

/-- Note one more call in the trace. -/
def State.record (s : State) (e : Effect) : State :=
  { s with trace := s.trace ++ [e] }

/-- The call `time.Now()`: the next clock reading. -/
def Now (w : World) (s : State) : Time × State :=
  (w.Now s.clockReads, { clockReads := s.clockReads + 1, trace := s.trace ++ [Effect.now] })

/-- How a Go call ends: it returns, the process exits (`os.Exit`, here through
`log.Fatal`), or it panics. -/
inductive Outcome (α : Type) where
  | returned (a : α)
  | exited (code : Nat)
  | panicked (err : Error)
  deriving DecidableEq, Repr

/-! ## `AwsEc2MetadataCredential` and `getCredentials` (lines 91-134) -/

/-- The struct `AwsEc2MetadataCredential`; its field `Type` is spelled `Type_`
here, `Type` being a keyword. The three fields copied from the provider chain
are Go strings; the four the program fills from literals and from `Format` are
text. -/
structure AwsEc2MetadataCredential where
  Code : String
  LastUpdated : String
  Type_ : String
  AccessKeyID : GoString
  SecretAccessKey : GoString
  Token : GoString
  Expiration : String
  deriving DecidableEq, Repr

/-- The session options `getCredentials` builds from the flag
`disableSharedConfig` (lines 103-111). -/
def sessionOptions (disableSharedConfig : Bool) : Options :=
  let sess_opts : Options :=
    { Config := { CredentialsChainVerboseErrors := true }
      SharedConfigState := SharedConfigState.SharedConfigEnable }
  if disableSharedConfig then
    { sess_opts with SharedConfigState := SharedConfigState.SharedConfigDisable }
  else sess_opts

/-- The function `getCredentials`. `session.Must` panics when the session cannot
be built; `log.Fatal` ends the process with status 1 when `Get` fails; a failing
`ExpiresAt` is replaced by the clock plus five minutes. -/
def getCredentials (disableSharedConfig : Bool) (w : World) (s : State) :
    Outcome AwsEc2MetadataCredential × State :=
  let sess_opts := sessionOptions disableSharedConfig
  let s := s.record (Effect.newSession sess_opts)
  match w.NewSessionWithOptions sess_opts with
  | Except.error err => (Outcome.panicked err, s)
  | Except.ok sess =>
    let s := s.record Effect.get
    match sess.Credentials.Get with
    | Except.error _ => (Outcome.exited 1, s)
    | Except.ok creds =>
      let s := s.record Effect.expiresAt
      let r : Time × State :=
        match sess.Credentials.ExpiresAt with
        | Except.ok t => (t, s)
        | Except.error _ =>
          let now := Now w s
          (now.1.Add (Minute * 5), now.2)
      let expiresAt := r.1
      let now := Now w r.2
      (Outcome.returned
        { Code := "Success"
          LastUpdated := now.1.FormatRFC3339
          Type_ := "AWS-HMAC"
          AccessKeyID := creds.AccessKeyID
          SecretAccessKey := creds.SecretAccessKey
          Token := creds.SessionToken
          Expiration := expiresAt.FormatRFC3339 }, now.2)

/-! ## `encoding/json`: what `json.NewEncoder(w).Encode` writes for the struct

The encoder walks a Go string byte by byte below `utf8.RuneSelf` and rune by
rune above it, and writes `\ufffd` for every byte that is not valid UTF-8. What
it writes is always text, so the body is a sequence of characters. -/

/-- The table `hex` of the encoder. -/
def hexDigit (n : Nat) : Char := "0123456789abcdef".data.getD n '0'

/-- The table `htmlSafeSet`, for characters below `utf8.RuneSelf`: printable
ASCII other than the double quote, the backslash and the HTML characters. -/
def htmlSafe (c : Char) : Bool :=
  32 ≤ c.toNat && c != '"' && c != '&' && c != '<' && c != '>' && c != '\\'

/-- What the encoder writes for one character of a string: itself, a two
character escape, or a `\u` escape (control characters, `<`, `>`, `&`, U+2028
and U+2029; the encoder escapes HTML by default). Backspace and form feed are
written `\b` and `\f`, as Go 1.22 and later do; earlier versions write
`\u0008` and `\u000c`, which denote the same characters. -/
def escapeChar (c : Char) : List Char :=
  if c.toNat < 128 then
    if htmlSafe c then [c]
    else if c = '\\' ∨ c = '"' then ['\\', c]
    else if c = Char.ofNat 8 then ['\\', 'b']
    else if c = Char.ofNat 12 then ['\\', 'f']
    else if c = '\n' then ['\\', 'n']
    else if c = '\r' then ['\\', 'r']
    else if c = '\t' then ['\\', 't']
    else ['\\', 'u', '0', '0', hexDigit (c.toNat / 16), hexDigit (c.toNat % 16)]
  else if c = '\u2028' ∨ c = '\u2029' then ['\\', 'u', '2', '0', '2', hexDigit (c.toNat % 16)]
  else [c]

/-- The loop of the encoder over the bytes of a string: each decoded character
is written with `escapeChar`, each byte that does not decode is written
`\ufffd` and skipped alone. `fuel` bounds the number of steps; the length of the
input is enough. -/
def escapeBytes : Nat → List (Fin 256) → List Char
  | 0, _ => []
  | _ + 1, [] => []
  | fuel + 1, b :: rest =>
    match decodeRune (b :: rest) with
    | some (c, rest1) => escapeChar c ++ escapeBytes fuel rest1
    | none => '\\' :: 'u' :: 'f' :: 'f' :: 'f' :: 'd' :: escapeBytes fuel rest

/-- A string as the encoder writes it: quoted and escaped. -/
def jsonString (g : GoString) : List Char :=
  '"' :: (escapeBytes g.bytes.length g.bytes ++ ['"'])

/-- The members of an object as the encoder writes them: `"name":"value"`,
separated by commas. -/
def jsonMembers : List (String × GoString) → List Char
  | [] => []
  | [kv] => jsonString kv.1 ++ ':' :: jsonString kv.2
  | kv :: rest => jsonString kv.1 ++ ':' :: (jsonString kv.2 ++ ',' :: jsonMembers rest)

/-- The JSON members of the struct: the names of its `json:"..."` tags with
the field values, in declaration order (lines 92-98). -/
def AwsEc2MetadataCredential.fields (r : AwsEc2MetadataCredential) :
    List (String × GoString) :=
  [("Code", GoString.ofString r.Code), ("LastUpdated", GoString.ofString r.LastUpdated),
   ("Type", GoString.ofString r.Type_), ("AccessKeyId", r.AccessKeyID),
   ("SecretAccessKey", r.SecretAccessKey), ("Token", r.Token),
   ("Expiration", GoString.ofString r.Expiration)]

/-- The bytes `Encode` writes for the struct: the object and a newline. -/
def Encode (r : AwsEc2MetadataCredential) : List Char :=
  '{' :: (jsonMembers r.fields ++ ['}', '\n'])

/-! ## Reading a JSON object of strings (RFC 8259)

The specification side of the body claim: which texts are a JSON object whose
members are all strings, and which members such a text has. -/

/-- The value of a hexadecimal digit. -/
def hexVal (c : Char) : Option Nat :=
  if 48 ≤ c.toNat ∧ c.toNat ≤ 57 then some (c.toNat - 48)
  else if 97 ≤ c.toNat ∧ c.toNat ≤ 102 then some (c.toNat - 87)
  else if 65 ≤ c.toNat ∧ c.toNat ≤ 70 then some (c.toNat - 55)
  else none

/-- The character a two-character escape stands for. -/
def unescape (e : Char) : Option Char :=
  if e = '"' then some '"'
  else if e = '\\' then some '\\'
  else if e = '/' then some '/'
  else if e = 'b' then some (Char.ofNat 8)
  else if e = 'f' then some (Char.ofNat 12)
  else if e = 'n' then some '\n'
  else if e = 'r' then some '\r'
  else if e = 't' then some '\t'
  else none

/-- Put a character in front of the string read so far. -/
def consChar (c : Char) : Option (List Char × List Char) → Option (List Char × List Char)
  | some (cs, rest) => some (c :: cs, rest)
  | none => none

/-- Read a string after its opening quote, up to and including the closing
quote: the characters it denotes and the rest of the input. Unescaped control
characters and `\u` escapes of surrogates are refused. -/
def readStringBody : List Char → Option (List Char × List Char)
  | [] => none
  | c :: rest =>
    if c = '"' then some ([], rest)
    else if c = '\\' then
      match rest with
      | [] => none
      | e :: rest1 =>
        if e = 'u' then
          match rest1 with
          | h1 :: h2 :: h3 :: h4 :: rest2 =>
            match hexVal h1, hexVal h2, hexVal h3, hexVal h4 with
            | some a, some b, some x, some d =>
              let n := ((a * 16 + b) * 16 + x) * 16 + d
              if 55296 ≤ n ∧ n ≤ 57343 then none
              else consChar (Char.ofNat n) (readStringBody rest2)
            | _, _, _, _ => none
          | _ => none
        else
          match unescape e with
          | some ch => consChar ch (readStringBody rest1)
          | none => none
    else if c.toNat < 32 then none
    else consChar c (readStringBody rest)

/-- Read a string, opening quote included. -/
def readString : List Char → Option (String × List Char)
  | [] => none
  | c :: rest =>
    if c = '"' then
      match readStringBody rest with
      | some (cs, rest1) => some (String.mk cs, rest1)
      | none => none
    else none

/-- JSON white space. -/
def isWs (c : Char) : Bool := c == ' ' || c == '\t' || c == '\n' || c == '\r'

/-- Skip white space. -/
def skipWs : List Char → List Char
  | [] => []
  | c :: cs => if isWs c then skipWs cs else c :: cs

/-- Read the members of an object after the opening brace, up to and including
the closing brace; `fuel` bounds the number of members. -/
def readMembers : Nat → List Char → Option (List (String × String) × List Char)
  | 0, _ => none
  | fuel + 1, cs =>
    match readString (skipWs cs) with
    | none => none
    | some (k, cs1) =>
      match skipWs cs1 with
      | [] => none
      | c :: cs2 =>
        if c = ':' then
          match readString (skipWs cs2) with
          | none => none
          | some (v, cs3) =>
            match skipWs cs3 with
            | [] => none
            | d :: cs4 =>
              if d = '}' then some ([(k, v)], cs4)
              else if d = ',' then
                match readMembers fuel cs4 with
                | some (ms, cs5) => some ((k, v) :: ms, cs5)
                | none => none
              else none
        else none

/-- Read a whole text as one JSON object whose members are strings: the
members in order, or `none` when the text is anything else. -/
def readObject (cs : List Char) : Option (List (String × String)) :=
  match skipWs cs with
  | [] => none
  | c :: cs1 =>
    if c = '{' then
      match skipWs cs1 with
      | [] => none
      | d :: cs2 =>
        if d = '}' then (if skipWs cs2 = [] then some [] else none)
        else
          match readMembers cs1.length cs1 with
          | some (ms, cs3) => if skipWs cs3 = [] then some ms else none
          | none => none
    else none

/-! ## The route handler and the router (lines 50-55) -/

/-- An `http.ResponseWriter`, by what has been written to it: the header map,
the status line once `WriteHeader` was called, and the body. -/
structure ResponseWriter where
  header : List (String × String)
  status : Option Nat
  body : List Char
  deriving DecidableEq, Repr

/-- A fresh response. -/
def ResponseWriter.new : ResponseWriter := { header := [], status := none, body := [] }

/-- The call `w.Header().Set(key, value)`: the value replaces any earlier one. -/
def ResponseWriter.setHeader (rw : ResponseWriter) (key value : String) : ResponseWriter :=
  { rw with header := rw.header.filter (fun kv => kv.1 != key) ++ [(key, value)] }

/-- The call `w.Header().Get(key)`. -/
def ResponseWriter.getHeader (rw : ResponseWriter) (key : String) : Option String :=
  (rw.header.find? (fun kv => kv.1 == key)).map (fun kv => kv.2)

/-- The call `w.WriteHeader(code)`: the first status written stands. -/
def ResponseWriter.WriteHeader (rw : ResponseWriter) (code : Nat) : ResponseWriter :=
  if rw.status.isSome then rw else { rw with status := some code }

/-- The call `w.Write(bytes)`: status 200 is implied when none was written. -/
def ResponseWriter.Write (rw : ResponseWriter) (bytes : List Char) : ResponseWriter :=
  { rw.WriteHeader 200 with body := rw.body ++ bytes }

/-- What serving one request did: how the handler ended, the response as
written so far, and the state of the program. -/
structure Served where
  outcome : Outcome Unit
  rw : ResponseWriter
  state : State

/-- The handler function of the route (lines 51-55): header, status, then the
encoding of what `getCredentials` returns. The argument `getCredentials()` is
evaluated before `Encode` runs, so nothing is written to the body unless a
record is returned. -/
def credentialHandler (disableSharedConfig : Bool) (w : World) (rw : ResponseWriter)
    (s : State) : Served :=
  let rw := rw.setHeader "Content-Type" "application/json"
  let rw := rw.WriteHeader 200
  match getCredentials disableSharedConfig w s with
  | (Outcome.returned r, s1) =>
    { outcome := Outcome.returned (), rw := rw.Write (Encode r), state := s1 }
  | (Outcome.exited code, s1) => { outcome := Outcome.exited code, rw := rw, state := s1 }
  | (Outcome.panicked err, s1) => { outcome := Outcome.panicked err, rw := rw, state := s1 }

/-- The part of an `*http.Request` the router looks at: `r.Method` and
`r.URL.Path`. -/
structure Request where
  Method : String
  Path : String
  deriving DecidableEq, Repr

/-- The elements of a path between its slashes. -/
def segments : List Char → List (List Char)
  | [] => [[]]
  | c :: cs =>
    if c = '/' then [] :: segments cs
    else
      match segments cs with
      | seg :: rest => (c :: seg) :: rest
      | [] => [[c]]

/-- One step of `path.Clean` on a rooted path: empty and `.` elements are
dropped, `..` removes the element before it (none at the root), any other
element is kept. -/
def cleanStep (out : List (List Char)) (seg : List Char) : List (List Char) :=
  if seg = [] ∨ seg = ['.'] then out
  else if seg = ['.', '.'] then out.dropLast
  else out ++ [seg]

/-- The elements kept, joined again behind single slashes. -/
def joinSegments : List (List Char) → List Char
  | [] => []
  | [seg] => seg
  | seg :: rest => seg ++ '/' :: joinSegments rest

/-- The function `path.Clean` on a rooted path (one that begins with a slash),
the only way `cleanPath` calls it. -/
def pathClean (p : List Char) : List Char :=
  '/' :: joinSegments ((segments p).foldl cleanStep [])

/-- The function `cleanPath` of `mux`: the canonical form of a request path;
the empty path becomes `/`, a missing leading slash is added, and a trailing
slash that `path.Clean` removed is put back. -/
def cleanPath (p : List Char) : List Char :=
  if p = [] then ['/']
  else
    let p := if p.head? = some '/' then p else '/' :: p
    let np := pathClean p
    if p.getLast? = some '/' ∧ np ≠ ['/'] then np ++ ['/'] else np

/-- A route of the router: the path matcher added by `PathPrefix` and the
method matcher added by `Methods`. -/
structure Route where
  pathStart : String
  methods : List String
  deriving DecidableEq, Repr

/-- The one route `main` registers: `r.PathPrefix("/")...Methods("GET")`. -/
def credentialRoute : Route := { pathStart := "/", methods := ["GET"] }

/-- The path matcher of a route: the request path begins with the given text. -/
def Route.matchesPath (rt : Route) (req : Request) : Bool :=
  rt.pathStart.data.isPrefixOf req.Path.data

/-- The method matcher of a route. -/
def Route.matchesMethod (rt : Route) (req : Request) : Bool :=
  rt.methods.contains req.Method

/-- The method `(*mux.Router).ServeHTTP` for the router `main` builds. Unless
`SkipClean` was set, which `main` does not do, the router first compares the
request path with `cleanPath` of it and answers a path that differs with
`http.StatusMovedPermanently` and a `Location` header. The value of that header
is `url.String()` of the request URL with the cleaned path, which escapes the
path and carries the query; the model writes the cleaned path alone, and no
statement below depends on it. Otherwise a request the route matches goes to
the handler; a path match with another method is answered 405
(`ErrMethodMismatch`), anything else 404 (`http.NotFoundHandler`). -/
def ServeHTTP (disableSharedConfig : Bool) (w : World) (req : Request) (rw : ResponseWriter)
    (s : State) : Served :=
  let p := cleanPath req.Path.data
  if p ≠ req.Path.data then
    { outcome := Outcome.returned ()
      rw := (rw.setHeader "Location" (String.mk p)).WriteHeader 301
      state := s }
  else if credentialRoute.matchesPath req then
    if credentialRoute.matchesMethod req then credentialHandler disableSharedConfig w rw s
    else { outcome := Outcome.returned (), rw := rw.WriteHeader 405, state := s }
  else
    { outcome := Outcome.returned ()
      rw := (((rw.setHeader "Content-Type" "text/plain; charset=utf-8").setHeader
        "X-Content-Type-Options" "nosniff").WriteHeader 404).Write "404 page not found\n".data
      state := s }

/-! ## The shutdown sequence of `main` (lines 75-88) and the life of the process -/

/-- The deadline of the shutdown context, `5*time.Second`. -/
def shutdownTimeout : Duration := 5 * Second

/-- Where the process stands. `Running`: `main` waits on the signal channel
and the server accepts connections; `Draining`: `main` is inside
`srv.Shutdown(ctx)`, with the time that has passed since `ctx` was made;
`Stopped`: the process has exited with the given status. `active` counts the
requests in flight. -/
inductive Lifecycle where
  | Running (active : Nat)
  | Draining (active : Nat) (elapsed : Duration)
  | Stopped (status : Nat)
  deriving DecidableEq, Repr

/-- What can happen to the process: a connection is accepted and its request
starts; a request in flight completes; a request in flight fails in
`getCredentials` with `log.Fatal`; `os.Interrupt` arrives; time passes;
`srv.Shutdown` returns. -/
inductive Event where
  | accept
  | requestDone
  | requestFatal
  | interrupt
  | tick (d : Duration)
  | shutdownReturns
  deriving DecidableEq, Repr

/-- The three phases, without their data. -/
inductive Phase where
  | running
  | draining
  | stopped
  deriving DecidableEq, Repr

/-- The phase of a state. -/
def Lifecycle.phase : Lifecycle → Phase
  | Lifecycle.Running _ => Phase.running
  | Lifecycle.Draining _ _ => Phase.draining
  | Lifecycle.Stopped _ => Phase.stopped

/-- The order in which the phases follow each other. -/
def Phase.rank : Phase → Nat
  | Phase.running => 0
  | Phase.draining => 1
  | Phase.stopped => 2

/-- One step of the process, as the program takes it.

* While running, requests are accepted and complete and time passes;
  `os.Interrupt` on the channel lets `main` pass line 80, make the context and
  call `Shutdown`.
* While draining, no request is accepted; requests in flight complete; a
  further interrupt stays on the channel, which nobody reads any more; time
  passes; `Shutdown` returns once no request is in flight, or once the time
  since the context was made has reached its deadline (the timer fires at the
  deadline or later), and `main` then calls `os.Exit(0)` whatever `Shutdown`
  returned.
* In either phase a request in flight whose `Get` fails ends the process
  through `log.Fatal` (status 1, line 117).

Ends of the process that are not the program's doing (a signal it does not
catch, see the comment at lines 76-77) are not steps of this relation. -/
def step : Lifecycle → Event → Option Lifecycle
  | Lifecycle.Running n, Event.accept => some (Lifecycle.Running (n + 1))
  | Lifecycle.Running (n + 1), Event.requestDone => some (Lifecycle.Running n)
  | Lifecycle.Running (_ + 1), Event.requestFatal => some (Lifecycle.Stopped 1)
  | Lifecycle.Running n, Event.interrupt => some (Lifecycle.Draining n 0)
  | Lifecycle.Running n, Event.tick d => if 0 < d then some (Lifecycle.Running n) else none
  | Lifecycle.Draining (n + 1) e, Event.requestDone => some (Lifecycle.Draining n e)
  | Lifecycle.Draining (_ + 1) _, Event.requestFatal => some (Lifecycle.Stopped 1)
  | Lifecycle.Draining n e, Event.interrupt => some (Lifecycle.Draining n e)
  | Lifecycle.Draining n e, Event.tick d =>
    if 0 < d then some (Lifecycle.Draining n (e + d)) else none
  | Lifecycle.Draining n e, Event.shutdownReturns =>
    if n = 0 ∨ shutdownTimeout ≤ e then some (Lifecycle.Stopped 0) else none
  | _, _ => none

/-- The state after a sequence of events, when each of them can happen. -/
def run : Lifecycle → List Event → Option Lifecycle
  | s, [] => some s
  | s, e :: es =>
    match step s e with
    | some s1 => run s1 es
    | none => none

/-! ## Concrete worlds used to evaluate the program -/

/-- A world whose session is always built and whose provider chain yields the
given results, with the given clock. -/
def staticWorld (get : Except Error Value) (expiresAt : Except Error Time) (clock : Nat → Time) :
    World :=
  { NewSessionWithOptions :=
      fun _ => Except.ok { Credentials := { Get := get, ExpiresAt := expiresAt } }
    Now := clock }

/-- A world in which no session can be built (say, `AWS_CA_BUNDLE` names a file
that cannot be opened). -/
def noSessionWorld : World :=
  { NewSessionWithOptions := fun _ => Except.error "LoadCustomCABundleError"
    Now := fun _ => { unixSec := 1600000000, nsec := 0, loc := UTC } }

/-- Credentials with an empty session token, as long-lived keys have. -/
def sampleValue : Value :=
  { AccessKeyID := "AKIAEXAMPLE", SecretAccessKey := " s3cr3t/+= ", SessionToken := ""
    ProviderName := "EnvProvider" }

/-- A clock that starts at 2020-09-13T12:26:40Z and advances 0.4 s a reading. -/
def sampleClock (n : Nat) : Time :=
  { unixSec := 1600000000 + (n * 400000000 / 1000000000 : Nat)
    nsec := Fin.ofNat (n * 400000000)
    loc := UTC }

/-- The state before the first request. -/
def initialState : State := { clockReads := 0, trace := [] }

/-- An expiration with a fraction of a second: 2020-09-13T13:26:40.5Z. -/
def halfSecondExpiry : Time := { unixSec := 1600003600, nsec := 500000000, loc := UTC }

/-- The first second of the year 10000, UTC. -/
def year10000 : Time := { unixSec := 253402300800, nsec := 0, loc := UTC }

/-- One minute before the year 10000, UTC: 9999-12-31T23:59:00Z. -/
def lastMinuteOf9999 : Time := { unixSec := 253402300740, nsec := 0, loc := UTC }

/-- A zone half a minute east of UTC, as local mean times are. -/
def halfMinuteZone : Location := FixedZone 30

/-- A zone that was half a minute east of UTC until 2020-09-13T12:28:20Z and
is on UTC since. -/
def shiftingZone : Location := ⟨fun s => if s < 1600000100 then 30 else 0⟩

/-- The instant 2020-09-13T13:26:40Z presented in the half-minute zone. -/
def halfMinuteExpiry : Time := { unixSec := 1600003600, nsec := 0, loc := halfMinuteZone }

/-- The instant 2020-09-13T12:26:40Z presented in the half-minute zone. -/
def halfMinuteNow : Time := { unixSec := 1600000000, nsec := 0, loc := halfMinuteZone }

/-- The instant 2020-09-13T12:26:40Z presented in the shifting zone. -/
def shiftingNow : Time := { unixSec := 1600000000, nsec := 0, loc := shiftingZone }

/-- Credentials whose access key is the single byte `0xff`, which is not valid
UTF-8; the environment provider returns them when `AWS_ACCESS_KEY_ID` holds
that byte. -/
def badByteValue : Value :=
  { AccessKeyID := { bytes := [255] }, SecretAccessKey := "s3cr3t", SessionToken := ""
    ProviderName := "EnvProvider" }

/-- A world whose chain resolves to `sampleValue`, with an expiration. -/
def resolvingWorld : World :=
  staticWorld (Except.ok sampleValue) (Except.ok halfSecondExpiry) sampleClock

/-- A world whose chain resolves to `badByteValue`, with an expiration. -/
def badByteWorld : World :=
  staticWorld (Except.ok badByteValue) (Except.ok halfSecondExpiry) sampleClock

/-! # Theorems -/

/-! ## The alias shim -/

/-- C6: for every environment, the shim sets
`AWS_CONTAINER_CREDENTIALS_RELATIVE_URI` to the value of
`AWS_CRED_CONTAINER_RELATIVE_URI` when that value is non-empty, whatever the
canonical variable held; leaves the canonical variable as it was when the alias
is unset or empty; leaves every other variable, the alias included, as it was;
and applied twice gives what it gives applied once. -/
theorem envShim_alias_overrides (e : Env) :
    (∀ v : String, e "AWS_CRED_CONTAINER_RELATIVE_URI" = some v → v ≠ "" →
        envShim e "AWS_CONTAINER_CREDENTIALS_RELATIVE_URI" = some v) ∧
    (e "AWS_CRED_CONTAINER_RELATIVE_URI" = none ∨ e "AWS_CRED_CONTAINER_RELATIVE_URI" = some "" →
        envShim e "AWS_CONTAINER_CREDENTIALS_RELATIVE_URI"
          = e "AWS_CONTAINER_CREDENTIALS_RELATIVE_URI") ∧
    (∀ k : String, k ≠ "AWS_CONTAINER_CREDENTIALS_RELATIVE_URI" → envShim e k = e k) ∧
    envShim e "AWS_CRED_CONTAINER_RELATIVE_URI" = e "AWS_CRED_CONTAINER_RELATIVE_URI" ∧
    envShim (envShim e) = envShim e := by
  have hk : ∀ k : String, k ≠ "AWS_CONTAINER_CREDENTIALS_RELATIVE_URI" → envShim e k = e k := by
    intro k hk
    unfold envShim
    by_cases h : Getenv e "AWS_CRED_CONTAINER_RELATIVE_URI" = ""
    · simp [h]
    · simp [h, Setenv, hk]
  have hne : ("AWS_CRED_CONTAINER_RELATIVE_URI" : String) ≠ "AWS_CONTAINER_CREDENTIALS_RELATIVE_URI" := by
    decide
  refine ⟨?_, ?_, hk, hk _ hne, ?_⟩
  · intro v hv hv0
    simp [envShim, Getenv, hv, hv0, Setenv]
  · intro h
    rcases h with h | h <;> simp [envShim, Getenv, h]
  · have hg : Getenv (envShim e) "AWS_CRED_CONTAINER_RELATIVE_URI"
        = Getenv e "AWS_CRED_CONTAINER_RELATIVE_URI" := by
      simp [Getenv, hk _ hne]
    by_cases h : Getenv e "AWS_CRED_CONTAINER_RELATIVE_URI" = ""
    · have h1 : envShim e = e := by simp [envShim, h]
      rw [h1, h1]
    · have h1 : envShim e = Setenv e "AWS_CONTAINER_CREDENTIALS_RELATIVE_URI"
          (Getenv e "AWS_CRED_CONTAINER_RELATIVE_URI") := by simp [envShim, h]
      have hdef : envShim (envShim e) = Setenv (envShim e) "AWS_CONTAINER_CREDENTIALS_RELATIVE_URI"
          (Getenv (envShim e) "AWS_CRED_CONTAINER_RELATIVE_URI") := by
        have h2 : ¬ Getenv (envShim e) "AWS_CRED_CONTAINER_RELATIVE_URI" = "" := by rw [hg]; exact h
        generalize envShim e = e2 at h2 ⊢
        simp [envShim, h2]
      rw [hdef, hg, h1]
      funext k
      simp only [Setenv]
      split <;> rfl

/-! ## `getCredentials`: the outcomes and the copied fields -/

/-- The record `getCredentials` returns once the session is built and `Get`
has succeeded, with the two places the expiration can come from. -/
theorem getCredentials_ok (flag : Bool) (w : World) (s : State) (sess : Session) (creds : Value)
    (hs : w.NewSessionWithOptions (sessionOptions flag) = Except.ok sess)
    (hg : sess.Credentials.Get = Except.ok creds) :
    ∃ r : AwsEc2MetadataCredential, ∃ s1 : State,
      getCredentials flag w s = (Outcome.returned r, s1) ∧
      r.Code = "Success" ∧ r.Type_ = "AWS-HMAC" ∧
      r.AccessKeyID = creds.AccessKeyID ∧ r.SecretAccessKey = creds.SecretAccessKey ∧
      r.Token = creds.SessionToken := by
  unfold getCredentials
  simp only [hs, hg]
  exact ⟨_, _, rfl, rfl, rfl, rfl, rfl, rfl⟩

/-- C2: whenever the session is built and `Get` succeeds, `getCredentials`
returns a record whose `AccessKeyID`, `SecretAccessKey` and `Token` are the
`AccessKeyID`, `SecretAccessKey` and `SessionToken` of the value `Get`
returned, unchanged. -/
theorem getCredentials_copies_chain_secrets (flag : Bool) (w : World) (s : State)
    (sess : Session) (creds : Value)
    (hs : w.NewSessionWithOptions (sessionOptions flag) = Except.ok sess)
    (hg : sess.Credentials.Get = Except.ok creds) :
    ∃ r : AwsEc2MetadataCredential,
      (getCredentials flag w s).1 = Outcome.returned r ∧
      r.AccessKeyID = creds.AccessKeyID ∧ r.SecretAccessKey = creds.SecretAccessKey ∧
      r.Token = creds.SessionToken := by
  obtain ⟨r, s1, h, _, _, h1, h2, h3⟩ := getCredentials_ok flag w s sess creds hs hg
  exact ⟨r, by rw [h], h1, h2, h3⟩

/-- C5, amended: `getCredentials` ends the process (exit status 1) exactly when
the session was built and `Get` returned an error; then no record is returned
and the handler has written nothing to the body. When the session cannot be
built, `session.Must` panics: again no record and no body, and no process exit
by `getCredentials`. Whenever the session is built and `Get` succeeds, whatever
`ExpiresAt` returns, a record is returned. -/
theorem getCredentials_outcomes (flag : Bool) (w : World) (s : State) (rw : ResponseWriter) :
    (((getCredentials flag w s).1 = Outcome.exited 1) ↔
      ∃ sess err, w.NewSessionWithOptions (sessionOptions flag) = Except.ok sess ∧
        sess.Credentials.Get = Except.error err) ∧
    (∀ code, (getCredentials flag w s).1 = Outcome.exited code →
      code = 1 ∧ (∀ r, (getCredentials flag w s).1 ≠ Outcome.returned r) ∧
      (credentialHandler flag w rw s).outcome = Outcome.exited 1 ∧
      (credentialHandler flag w rw s).rw.body = rw.body) ∧
    (∀ err, w.NewSessionWithOptions (sessionOptions flag) = Except.error err →
      (getCredentials flag w s).1 = Outcome.panicked err ∧
      (credentialHandler flag w rw s).outcome = Outcome.panicked err ∧
      (credentialHandler flag w rw s).rw.body = rw.body) ∧
    (∀ sess creds, w.NewSessionWithOptions (sessionOptions flag) = Except.ok sess →
      sess.Credentials.Get = Except.ok creds →
      ∃ r, (getCredentials flag w s).1 = Outcome.returned r) := by
  refine ⟨?_, ?_, ?_, ?_⟩
  · constructor
    · intro h
      unfold getCredentials at h
      cases hs : w.NewSessionWithOptions (sessionOptions flag) with
      | error err => simp [hs] at h
      | ok sess =>
        cases hg : sess.Credentials.Get with
        | error err => exact ⟨sess, err, rfl, hg⟩
        | ok creds => simp [hs, hg] at h
    · rintro ⟨sess, err, hs, hg⟩
      unfold getCredentials
      simp [hs, hg]
  · intro code h
    cases hs : w.NewSessionWithOptions (sessionOptions flag) with
    | error err => simp [getCredentials, hs] at h
    | ok sess =>
      cases hg : sess.Credentials.Get with
      | error err =>
        have hgc : getCredentials flag w s
            = (Outcome.exited 1, (s.record (Effect.newSession (sessionOptions flag))).record Effect.get) := by
          simp [getCredentials, hs, hg]
        rw [hgc] at h
        simp only [Outcome.exited.injEq] at h
        refine ⟨h.symm, ?_, ?_, ?_⟩
        · intro r; rw [hgc]; simp
        · simp [credentialHandler, hgc]
        · simp [credentialHandler, hgc, ResponseWriter.WriteHeader, ResponseWriter.setHeader]
          split <;> rfl
      | ok creds => simp [getCredentials, hs, hg] at h
  · intro err hs
    have hgc : getCredentials flag w s
        = (Outcome.panicked err, s.record (Effect.newSession (sessionOptions flag))) := by
      simp [getCredentials, hs]
    refine ⟨by rw [hgc], by simp [credentialHandler, hgc], ?_⟩
    simp [credentialHandler, hgc, ResponseWriter.WriteHeader, ResponseWriter.setHeader]
    split <;> rfl
  · intro sess creds hs hg
    obtain ⟨r, s1, h, _⟩ := getCredentials_ok flag w s sess creds hs hg
    exact ⟨r, by rw [h]⟩

/-- C5, as stated, fails when no session can be built: `Get` returns no error
(it is never called), and yet `getCredentials` returns no record: it panics,
and the handler leaves the body empty. -/
theorem getCredentials_session_failure :
    (getCredentials false noSessionWorld initialState).1
      = Outcome.panicked "LoadCustomCABundleError" ∧
    ¬ (∃ sess err, noSessionWorld.NewSessionWithOptions (sessionOptions false) = Except.ok sess ∧
        sess.Credentials.Get = Except.error err) ∧
    ¬ (∃ r, (getCredentials false noSessionWorld initialState).1 = Outcome.returned r) ∧
    (credentialHandler false noSessionWorld ResponseWriter.new initialState).rw.body = [] := by
  refine ⟨rfl, ?_, ?_, rfl⟩
  · rintro ⟨sess, err, h, _⟩
    simp [noSessionWorld] at h
  · rintro ⟨r, h⟩
    simp [getCredentials, noSessionWorld] at h

/-- Witness for C2: long-lived keys with an empty session token and a secret
with blanks at its ends come through unchanged. -/
theorem getCredentials_copies_chain_secrets_witness :
    ∃ r : AwsEc2MetadataCredential,
      (getCredentials false
        (staticWorld (Except.ok sampleValue) (Except.error "ProviderNotExpirer") sampleClock)
        initialState).1 = Outcome.returned r ∧
      r.AccessKeyID = "AKIAEXAMPLE" ∧ r.SecretAccessKey = " s3cr3t/+= " ∧ r.Token = "" :=
  getCredentials_copies_chain_secrets false
    (staticWorld (Except.ok sampleValue) (Except.error "ProviderNotExpirer") sampleClock)
    initialState _ sampleValue rfl rfl

/-- C7: for either value of the flag, whenever the session is built and `Get`
succeeds, the record `getCredentials` returns has `Code` equal to `Success`
and `Type` equal to `AWS-HMAC`. -/
theorem getCredentials_code_and_type (disableSharedConfig : Bool) (w : World) (s : State)
    (sess : Session) (creds : Value)
    (hs : w.NewSessionWithOptions (sessionOptions disableSharedConfig) = Except.ok sess)
    (hg : sess.Credentials.Get = Except.ok creds) :
    ∃ r : AwsEc2MetadataCredential,
      (getCredentials disableSharedConfig w s).1 = Outcome.returned r ∧
      r.Code = "Success" ∧ r.Type_ = "AWS-HMAC" := by
  obtain ⟨r, s1, h, h1, h2, _⟩ := getCredentials_ok disableSharedConfig w s sess creds hs hg
  exact ⟨r, by rw [h], h1, h2⟩

/-- Witness for C7: with shared configuration disabled and a chain that reports
an expiration. -/
theorem getCredentials_code_and_type_witness :
    ∃ r : AwsEc2MetadataCredential,
      (getCredentials true
        (staticWorld (Except.ok sampleValue) (Except.ok halfSecondExpiry) sampleClock)
        initialState).1 = Outcome.returned r ∧
      r.Code = "Success" ∧ r.Type_ = "AWS-HMAC" :=
  getCredentials_code_and_type true
    (staticWorld (Except.ok sampleValue) (Except.ok halfSecondExpiry) sampleClock)
    initialState _ sampleValue rfl rfl

/-- The leap-year test as a statement about remainders. -/
theorem isLeap_iff (year : Int) :
    isLeap year = true ↔ year % 4 = 0 ∧ (year % 100 ≠ 0 ∨ year % 400 = 0) := by
  simp [isLeap]

/-- The arithmetic of the cycles inside one 400-year cycle, on named
quantities. -/
theorem cycle_arith (i f n100 d2 n4 d3 c n1 yday : Nat) (hi : i < 146097)
    (hf : f = i / 36524) (h100 : n100 = f - f / 4) (hd2 : d2 = i - 36524 * n100)
    (hn4 : n4 = d2 / 1461) (hd3 : d3 = d2 - 1461 * n4) (hc : c = d3 / 365)
    (hn1 : n1 = c - c / 4) (hy : yday = d3 - 365 * n1) :
    n100 ≤ 3 ∧ n4 ≤ 24 ∧ n1 ≤ 3 ∧
      i = 36524 * n100 + 1461 * n4 + 365 * n1 + yday ∧
      yday ≤ 365 ∧ (yday = 365 → n1 = 3 ∧ (n4 < 24 ∨ n100 = 3)) := by
  have hf4 : f ≤ 4 := by omega
  have hn100 : n100 ≤ 3 := by omega
  have hd2b : d2 ≤ 36524 := by omega
  have hd2' : d2 < 36524 ∨ n100 = 3 := by omega
  have hi2 : i = 36524 * n100 + d2 := by omega
  have hn4b : n4 ≤ 24 := by omega
  have hd3b : d3 ≤ 1460 := by omega
  have hd3' : d3 < 1460 ∨ n4 < 24 ∨ n100 = 3 := by omega
  have hd23 : d2 = 1461 * n4 + d3 := by omega
  have hc4 : c ≤ 4 := by omega
  have hn1b : n1 ≤ 3 := by omega
  have hd3y : d3 = 365 * n1 + yday := by omega
  have hyb : yday ≤ 365 := by omega
  refine ⟨hn100, hn4b, hn1b, by omega, hyb, ?_⟩
  intro h365
  have : n1 = 3 := by omega
  refine ⟨this, ?_⟩
  omega

/-- The function `yearDay` inside one 400-year cycle. -/
theorem yearDay_cycle (i : Nat) (hi : i < 146097) :
    ∃ n100 n4 n1 yday : Nat,
      yearDay i = (100 * n100 + 4 * n4 + n1, yday) ∧
      n100 ≤ 3 ∧ n4 ≤ 24 ∧ n1 ≤ 3 ∧
      i = 36524 * n100 + 1461 * n4 + 365 * n1 + yday ∧
      yday ≤ 365 ∧ (yday = 365 → n1 = 3 ∧ (n4 < 24 ∨ n100 = 3)) := by
  have h0 : i / 146097 = 0 := by omega
  simp only [yearDay, daysPer400Years, daysPer100Years, daysPer4Years, h0, Nat.mul_zero,
    Nat.sub_zero, Nat.zero_add]
  exact ⟨_, _, _, _, rfl, cycle_arith i _ _ _ _ _ _ _ _ hi rfl rfl rfl rfl rfl rfl rfl rfl⟩

/-- The year found by `yearDay` for a day count within the years 0000-9999,
and the day of that year: the days before the year plus the day of the year
give the day count back, and the day lies within the year. -/
theorem yearDay_spec (d : Nat) (hlo : 106751990353566 ≤ d) (hhi : d ≤ 106751994005990) :
    ∃ y : Nat, ((yearDay d).1 : Int) + absoluteZeroYear = (y : Int) ∧ y ≤ 9999 ∧
      (yearDay d).2 < (if isLeap y = true then 366 else 365) ∧
      daysBeforeYear y + (yearDay d).2 + 106751990353566 = d := by
  have hi : d - 146097 * (d / 146097) < 146097 := by omega
  simp only [yearDay, daysPer400Years, daysPer100Years, daysPer4Years, absoluteZeroYear]
  obtain ⟨h100, h4, h1, hsum, hyd, hleap⟩ :=
    cycle_arith (d - 146097 * (d / 146097)) _ _ _ _ _ _ _ _ hi rfl rfl rfl rfl rfl rfl rfl rfl
  generalize (d - 146097 * (d / 146097)) / 36524 - (d - 146097 * (d / 146097)) / 36524 / 4
    = n100 at *
  generalize (d - 146097 * (d / 146097) - 36524 * n100) / 1461 = n4 at *
  generalize (d - 146097 * (d / 146097) - 36524 * n100 - 1461 * n4) / 365
    - (d - 146097 * (d / 146097) - 36524 * n100 - 1461 * n4) / 365 / 4 = n1 at *
  generalize d - 146097 * (d / 146097) - 36524 * n100 - 1461 * n4 - 365 * n1 = yday at *
  generalize hq : d / 146097 = q at *
  have hd : d = 146097 * q + (36524 * n100 + 1461 * n4 + 365 * n1 + yday) := by omega
  have hq1 : 730692555 ≤ q := by omega
  have hq2 : q ≤ 730692580 := by omega
  have hy0 : 292277022399 ≤ 400 * q + 100 * n100 + 4 * n4 + n1 := by omega
  refine ⟨400 * q + 100 * n100 + 4 * n4 + n1 - 292277022399, by omega, by omega, ?_, ?_⟩
  · have hl : isLeap ((400 * q + 100 * n100 + 4 * n4 + n1 - 292277022399 : Nat) : Int) = true
        ↔ n1 = 3 ∧ (n4 < 24 ∨ n100 = 3) := by
      rw [isLeap_iff]
      omega
    by_cases h : n1 = 3 ∧ (n4 < 24 ∨ n100 = 3)
    · rw [if_pos (hl.mpr h)]; omega
    · rw [if_neg (fun hh => h (hl.mp hh))]; omega
  · simp only [daysBeforeYear]
    generalize hY : 400 * q + 100 * n100 + 4 * n4 + n1 - 292277022399 = Y
    have hY' : Y + 292277022399 = 400 * q + 100 * n100 + 4 * n4 + n1 := by omega
    have e400 : (Y + 399) / 400 = q - 730692555 := by omega
    have e100 : (Y + 99) / 100 + 3 = 4 * (q - 730692555) + n100 := by omega
    have e4 : (Y + 3) / 4 + 99 = 100 * (q - 730692555) + 25 * n100 + n4 := by omega
    omega

set_option maxRecDepth 100000 in
/-- In a common year every day of the year has a valid month and day, and its
place in the year is that day; checked for all 365 days. -/
theorem monthDay_common : ∀ yd : Nat, yd < 365 →
    1 ≤ (monthDay false yd).1 ∧ (monthDay false yd).1 ≤ 12 ∧ 1 ≤ (monthDay false yd).2 ∧
    (monthDay false yd).2
      ≤ daysBefore (monthDay false yd).1 - daysBefore ((monthDay false yd).1 - 1) ∧
    (monthDay false yd).2 ≤ 31 ∧
    daysBefore ((monthDay false yd).1 - 1) + ((monthDay false yd).2 - 1) = yd := by
  decide

set_option maxRecDepth 100000 in
/-- In a leap year likewise, for all 366 days. -/
theorem monthDay_leap : ∀ yd : Nat, yd < 366 →
    1 ≤ (monthDay true yd).1 ∧ (monthDay true yd).1 ≤ 12 ∧ 1 ≤ (monthDay true yd).2 ∧
    (monthDay true yd).2
      ≤ (if (monthDay true yd).1 = 2 then 29
          else daysBefore (monthDay true yd).1 - daysBefore ((monthDay true yd).1 - 1)) ∧
    (monthDay true yd).2 ≤ 31 ∧
    daysBefore ((monthDay true yd).1 - 1) + (if 3 ≤ (monthDay true yd).1 then 1 else 0)
      + ((monthDay true yd).2 - 1) = yd := by
  decide

/-- Month and day of a day of the year: a valid date of that year, whose
position in the year is the day given. -/
theorem monthDay_spec (y yd : Nat) (hyd : yd < (if isLeap y = true then 366 else 365)) :
    ∃ mo d : Nat, monthDay (isLeap y) yd = (mo, d) ∧ 1 ≤ mo ∧ mo ≤ 12 ∧ 1 ≤ d ∧
      d ≤ daysIn y mo ∧ d ≤ 31 ∧
      daysBefore (mo - 1) + (if isLeap y = true ∧ 3 ≤ mo then 1 else 0) + (d - 1) = yd := by
  unfold daysIn
  generalize isLeap (y : Int) = l at *
  cases l with
  | true =>
    simp only [if_true] at hyd
    obtain ⟨a1, a2, a3, a4, a5, a6⟩ := monthDay_leap yd hyd
    refine ⟨(monthDay true yd).1, (monthDay true yd).2, rfl, a1, a2, a3, ?_, a5, ?_⟩
    · simp only [and_true]
      exact a4
    · simp only [true_and]
      exact a6
  | false =>
    simp only [Bool.false_eq_true, if_false] at hyd
    obtain ⟨a1, a2, a3, a4, a5, a6⟩ := monthDay_common yd hyd
    refine ⟨(monthDay false yd).1, (monthDay false yd).2, rfl, a1, a2, a3, ?_, a5, ?_⟩
    · simp only [Bool.false_eq_true, and_false, if_false]
      exact a4
    · simp only [Bool.false_eq_true, false_and, if_false, Nat.add_zero]
      exact a6

/-! ## Decimal fields: `appendInt` against `takeDigits` -/

/-- A digit character has the digit as its value. -/
theorem digitVal_ofNat (d : Nat) (h : d < 10) : digitVal (Char.ofNat (48 + d)) = some d := by
  interval_cases d <;> rfl

/-- A number below ten has one digit. -/
theorem decimalDigits_small (f u : Nat) (h : u < 10) :
    decimalDigits f u = [Char.ofNat (48 + u)] := by
  cases f with
  | zero => simp [decimalDigits, Nat.mod_eq_of_lt h]
  | succ f => simp [decimalDigits, h]

/-- A number from ten on: the digits of its tenth, then its last digit. -/
theorem decimalDigits_step (f u : Nat) (h : 10 ≤ u) :
    decimalDigits (f + 1) u = decimalDigits f (u / 10) ++ [Char.ofNat (48 + u % 10)] := by
  have h1 : ¬ u < 10 := by omega
  simp [decimalDigits, h1]

/-- A two-digit field. -/
theorem appendInt_two (n : Nat) (h : n < 100) :
    appendInt (n : Int) 2 = [Char.ofNat (48 + n / 10), Char.ofNat (48 + n % 10)] := by
  have hneg : ¬ ((n : Int) < 0) := by omega
  simp only [appendInt, Int.natAbs_ofNat, hneg, if_false, List.nil_append]
  by_cases h10 : n < 10
  · have e1 : n / 10 = 0 := by omega
    have e2 : n % 10 = n := by omega
    rw [decimalDigits_small n n h10, e1, e2]
    rfl
  · obtain ⟨f, rfl⟩ : ∃ f, n = f + 1 := ⟨n - 1, by omega⟩
    rw [decimalDigits_step f _ (by omega), decimalDigits_small f _ (by omega)]
    rfl

/-- A four-digit field. -/
theorem appendInt_four (n : Nat) (h : n < 10000) :
    appendInt (n : Int) 4
      = [Char.ofNat (48 + n / 1000), Char.ofNat (48 + n / 100 % 10),
         Char.ofNat (48 + n / 10 % 10), Char.ofNat (48 + n % 10)] := by
  have hneg : ¬ ((n : Int) < 0) := by omega
  simp only [appendInt, Int.natAbs_ofNat, hneg, if_false, List.nil_append]
  by_cases h10 : n < 10
  · have e1 : n / 1000 = 0 := by omega
    have e2 : n / 100 % 10 = 0 := by omega
    have e3 : n / 10 % 10 = 0 := by omega
    have e4 : n % 10 = n := by omega
    rw [decimalDigits_small n n h10, e1, e2, e3, e4]
    rfl
  · obtain ⟨f, rfl⟩ : ∃ f, n = f + 1 := ⟨n - 1, by omega⟩
    rw [decimalDigits_step f _ (by omega)]
    by_cases h100 : f + 1 < 100
    · have e1 : (f + 1) / 1000 = 0 := by omega
      have e2 : (f + 1) / 100 % 10 = 0 := by omega
      have e3 : (f + 1) / 10 % 10 = (f + 1) / 10 := by omega
      rw [decimalDigits_small f _ (by omega), e1, e2, e3]
      rfl
    · obtain ⟨g, rfl⟩ : ∃ g, f = g + 1 := ⟨f - 1, by omega⟩
      rw [decimalDigits_step g _ (by omega)]
      by_cases h1000 : g + 1 + 1 < 1000
      · have e1 : (g + 1 + 1) / 1000 = 0 := by omega
        have e2 : (g + 1 + 1) / 100 % 10 = (g + 1 + 1) / 10 / 10 := by omega
        have e3 : (g + 1 + 1) / 10 % 10 = (g + 1 + 1) / 10 % 10 := rfl
        rw [decimalDigits_small g _ (by omega), e1, e2]
        rfl
      · obtain ⟨k, rfl⟩ : ∃ k, g = k + 1 := ⟨g - 1, by omega⟩
        have e1 : (k + 1 + 1 + 1) / 1000 = (k + 1 + 1 + 1) / 10 / 10 / 10 := by omega
        have e2 : (k + 1 + 1 + 1) / 100 % 10 = (k + 1 + 1 + 1) / 10 / 10 % 10 := by omega
        rw [decimalDigits_step k _ (by omega), decimalDigits_small k _ (by omega), e1, e2]
        rfl

/-- Reading a two-digit field gives the number back. -/
theorem takeDigits_two (n : Nat) (h : n < 100) (rest : List Char) :
    takeDigits 2 (appendInt (n : Int) 2 ++ rest) = some (n, rest) := by
  rw [appendInt_two n h]
  simp only [List.cons_append, List.nil_append, takeDigits,
    digitVal_ofNat (n / 10) (by omega), digitVal_ofNat (n % 10) (by omega)]
  simp only [Option.some.injEq, Prod.mk.injEq, and_true]
  norm_num
  omega

/-- Reading a four-digit field gives the number back. -/
theorem takeDigits_four (n : Nat) (h : n < 10000) (rest : List Char) :
    takeDigits 4 (appendInt (n : Int) 4 ++ rest) = some (n, rest) := by
  rw [appendInt_four n h]
  simp only [List.cons_append, List.nil_append, takeDigits,
    digitVal_ofNat (n / 1000) (by omega), digitVal_ofNat (n / 100 % 10) (by omega),
    digitVal_ofNat (n / 10 % 10) (by omega), digitVal_ofNat (n % 10) (by omega)]
  simp only [Option.some.injEq, Prod.mk.injEq, and_true]
  norm_num
  omega

/-- Reading two digit characters. -/
theorem takeDigits_two_chars (n : Nat) (h : n < 100) (rest : List Char) :
    takeDigits 2 (Char.ofNat (48 + n / 10) :: Char.ofNat (48 + n % 10) :: rest)
      = some (n, rest) := by
  have := takeDigits_two n h rest
  rwa [appendInt_two n h] at this

/-- The zone suffix reads back as the offset when the offset is a whole number
of minutes within a day. -/
theorem parseZone_formatZone (off : Int) (hmin : off % 60 = 0) (hlo : -86400 < off)
    (hhi : off < 86400) : parseZone (formatZone off) = some off := by
  unfold formatZone
  by_cases h0 : off = 0
  · simp [h0, parseZone]
  · obtain ⟨k, rfl⟩ : ∃ k : Int, off = 60 * k := ⟨off / 60, by omega⟩
    have hk : (60 * k).tdiv 60 = k := Int.mul_tdiv_cancel_left k (by decide)
    simp only [h0, if_false, hk]
    obtain ⟨z, hz⟩ : ∃ z : Nat, k.natAbs = z := ⟨_, rfl⟩
    rw [hz]
    have hz1 : z < 1440 := by omega
    have hh : z / 60 < 100 := by omega
    have hm : z % 60 < 100 := by omega
    rw [appendInt_two _ hh, appendInt_two _ hm]
    simp only [List.cons_append, List.nil_append, parseZone, takeDigits_two_chars _ hh,
      takeDigits_two_chars _ hm]
    have hb : z / 60 ≤ 23 ∧ z % 60 ≤ 59 := by omega
    by_cases hneg : k < 0
    · simp only [hneg, if_true, hb, and_self, Char.reduceEq, if_false]
      congr 1
      omega
    · simp only [hneg, if_false, hb, and_self, if_true]
      congr 1
      omega

/-- No fraction is read where no dot stands. -/
theorem takeFraction_none (c : Char) (cs : List Char) (h : c ≠ '.') :
    takeFraction (c :: cs) = some (0, c :: cs) := by
  unfold takeFraction
  split
  · rename_i heq
    simp only [List.cons.injEq] at heq
    exact absurd heq.1 h
  · rfl

/-- The zone suffix does not begin with a dot. -/
theorem takeFraction_formatZone (off : Int) :
    takeFraction (formatZone off) = some (0, formatZone off) := by
  unfold formatZone
  by_cases h0 : off = 0
  · simp only [h0, if_true]
    exact takeFraction_none _ _ (by decide)
  · simp only [h0, if_false]
    by_cases hneg : off.tdiv 60 < 0
    · simp only [hneg, if_true]
      exact takeFraction_none _ _ (by decide)
    · simp only [hneg, if_false]
      exact takeFraction_none _ _ (by decide)

/-- Reading the characters `formatRFC3339Chars` lays out, field by field. -/
theorem parse_fields (y mo d h mi s : Nat) (off : Int) (hy : y < 10000) (hmo : mo < 100)
    (hd : d < 100) (hh : h < 100) (hmi : mi < 100) (hs : s < 100)
    (hmin : off % 60 = 0) (hlo : -86400 < off) (hhi : off < 86400) :
    parseRFC3339Chars
      (appendInt (y : Int) 4 ++ '-' :: appendInt (mo : Int) 2 ++ '-' :: appendInt (d : Int) 2
        ++ 'T' :: appendInt (h : Int) 2 ++ ':' :: appendInt (mi : Int) 2
        ++ ':' :: appendInt (s : Int) 2 ++ formatZone off)
      = if 1 ≤ mo ∧ mo ≤ 12 ∧ 1 ≤ d ∧ d ≤ daysIn y mo ∧ h ≤ 23 ∧ mi ≤ 59 ∧ s ≤ 59 then
          some (((daysSinceEpoch y mo d * 86400
              + ((h * 3600 + mi * 60 + s : Nat) : Int)) - off) * 1000000000 + ((0 : Nat) : Int))
        else none := by
  unfold parseRFC3339Chars
  simp only [List.cons_append, List.append_assoc, takeDigits_four y hy, takeDigits_two mo hmo,
    takeDigits_two d hd, takeDigits_two h hh, takeDigits_two mi hmi, takeDigits_two s hs,
    expectChar, true_or, if_true, takeFraction_formatZone, parseZone_formatZone off hmin hlo hhi]

/-- The absolute second count of a time in range is its local time shifted by
the constant between the two counts: nothing wraps. -/
theorem abs_of_inRange (t : Time) (h : t.inRFC3339Range) :
    (t.abs : Int) = t.unixSec + t.offset + 9223372028715321600 ∧
      9223371966548102400 ≤ t.abs ∧ t.abs ≤ 9223372282117622399 := by
  obtain ⟨h1, h2, _⟩ := h
  unfold Time.abs unixToInternal internalToAbsolute
  omega

/-- The round trip of the layout: a time in range, rendered with
`time.RFC3339` and read back, gives the instant of the time cut to the whole
second. -/
theorem parse_format (t : Time) (h : t.inRFC3339Range) :
    parseRFC3339 t.FormatRFC3339 = some (t.unixSec * 1000000000) := by
  obtain ⟨habs, halo, hahi⟩ := abs_of_inRange t h
  obtain ⟨_, _, hmin, hlo, hhi⟩ := h
  obtain ⟨y, hy, hy9, hyd, hdays⟩ := yearDay_spec (t.abs / 86400) (by omega) (by omega)
  obtain ⟨mo, d, hmdeq, hm1, hm12, hd1, hdin, hd31, hpos⟩ := monthDay_spec y _ hyd
  have hdate : absDate t.abs = { year := (y : Int), month := mo, day := d } := by
    simp only [absDate, secondsPerDay, hy, hmdeq]
  unfold parseRFC3339 Time.FormatRFC3339 formatRFC3339Chars
  simp only [hdate, secondsPerDay]
  have hclock : t.abs % 86400 < 86400 := Nat.mod_lt _ (by decide)
  rw [parse_fields y mo d (t.abs % 86400 / 3600) (t.abs % 86400 % 3600 / 60) (t.abs % 86400 % 60)
    t.offset (by omega) (by omega) (by omega) (by omega) (by omega) (by omega) hmin hlo hhi]
  have hvalid : 1 ≤ mo ∧ mo ≤ 12 ∧ 1 ≤ d ∧ d ≤ daysIn y mo ∧ t.abs % 86400 / 3600 ≤ 23 ∧
      t.abs % 86400 % 3600 / 60 ≤ 59 ∧ t.abs % 86400 % 60 ≤ 59 :=
    ⟨hm1, hm12, hd1, hdin, by omega, by omega, by omega⟩
  have hdse : daysSinceEpoch y mo d = ((t.abs / 86400 : Nat) : Int) - 106751991073094 := by
    unfold daysSinceEpoch
    omega
  rw [if_pos hvalid, hdse]
  congr 1
  omega

/-- A time in range has a local year from 0 to 9999. -/
theorem year_of_inRange (t : Time) (h : t.inRFC3339Range) : 0 ≤ t.Year ∧ t.Year ≤ 9999 := by
  obtain ⟨_, halo, hahi⟩ := abs_of_inRange t h
  obtain ⟨y, hy, hy9, _, _⟩ := yearDay_spec (t.abs / 86400) (by omega) (by omega)
  have hyear : t.Year = (y : Int) := by
    simp only [Time.Year, absDate, secondsPerDay]
    exact hy
  rw [hyear]
  omega

/-! ## `getCredentials`: the two timestamps -/

/-- The result of `getCredentials` when the chain reports an expiration: one
clock reading, made last. -/
theorem getCredentials_reported (flag : Bool) (w : World) (s : State) (sess : Session)
    (creds : Value) (t : Time)
    (hs : w.NewSessionWithOptions (sessionOptions flag) = Except.ok sess)
    (hg : sess.Credentials.Get = Except.ok creds)
    (he : sess.Credentials.ExpiresAt = Except.ok t) :
    getCredentials flag w s =
      (Outcome.returned
        { Code := "Success"
          LastUpdated := (w.Now s.clockReads).FormatRFC3339
          Type_ := "AWS-HMAC"
          AccessKeyID := creds.AccessKeyID
          SecretAccessKey := creds.SecretAccessKey
          Token := creds.SessionToken
          Expiration := t.FormatRFC3339 },
        { clockReads := s.clockReads + 1
          trace := s.trace ++ [Effect.newSession (sessionOptions flag), Effect.get,
            Effect.expiresAt, Effect.now] }) := by
  simp [getCredentials, hs, hg, he, Now, State.record]

/-- The result of `getCredentials` when the chain reports no expiration: two
clock readings, the first for the fallback, the second for `LastUpdated`. -/
theorem getCredentials_fallback (flag : Bool) (w : World) (s : State) (sess : Session)
    (creds : Value) (err : Error)
    (hs : w.NewSessionWithOptions (sessionOptions flag) = Except.ok sess)
    (hg : sess.Credentials.Get = Except.ok creds)
    (he : sess.Credentials.ExpiresAt = Except.error err) :
    getCredentials flag w s =
      (Outcome.returned
        { Code := "Success"
          LastUpdated := (w.Now (s.clockReads + 1)).FormatRFC3339
          Type_ := "AWS-HMAC"
          AccessKeyID := creds.AccessKeyID
          SecretAccessKey := creds.SecretAccessKey
          Token := creds.SessionToken
          Expiration := ((w.Now s.clockReads).Add (Minute * 5)).FormatRFC3339 },
        { clockReads := s.clockReads + 2
          trace := s.trace ++ [Effect.newSession (sessionOptions flag), Effect.get,
            Effect.expiresAt, Effect.now, Effect.now] }) := by
  simp [getCredentials, hs, hg, he, Now, State.record]

/-- Adding five minutes moves the seconds by 300 and keeps the nanoseconds. -/
theorem add_five_minutes (t : Time) :
    (t.Add (Minute * 5)).unixSec = t.unixSec + 300 ∧ (t.Add (Minute * 5)).nsec = t.nsec := by
  have hd : (Minute * 5 : Int).tdiv 1000000000 = 300 := by decide
  have hm : (Minute * 5 : Int).tmod 1000000000 = 0 := by decide
  have hn := t.nsec.isLt
  unfold Time.Add
  simp only [hd, hm, Int.add_zero]
  have h1 : ¬ (1000000000 : Int) ≤ (t.nsec.val : Int) := by omega
  have h2 : ¬ ((t.nsec.val : Int) < 0) := by omega
  simp only [h1, h2, dite_false]
  exact ⟨trivial, Fin.ext (by simp)⟩

/-- C3, as stated, fails in three ways. A reported expiration with half a
second is rendered without it, so the string reads back as an instant half a
second earlier; one in the year 10000 is rendered with five year digits,
which is no RFC 3339 timestamp; one in a zone half a minute off UTC is rendered
with the zone `+00:00`, so the string reads back half a minute late. -/
theorem expiration_round_trip_fails :
    ((getCredentials false
        (staticWorld (Except.ok sampleValue) (Except.ok halfSecondExpiry) sampleClock)
        initialState).1
      = Outcome.returned
        { Code := "Success", LastUpdated := "2020-09-13T12:26:40Z", Type_ := "AWS-HMAC"
          AccessKeyID := "AKIAEXAMPLE", SecretAccessKey := " s3cr3t/+= ", Token := ""
          Expiration := "2020-09-13T13:26:40Z" } ∧
      parseRFC3339 "2020-09-13T13:26:40Z" = some 1600003600000000000 ∧
      halfSecondExpiry.UnixNano = 1600003600500000000) ∧
    ((getCredentials false
        (staticWorld (Except.ok sampleValue) (Except.ok year10000) sampleClock)
        initialState).1
      = Outcome.returned
        { Code := "Success", LastUpdated := "2020-09-13T12:26:40Z", Type_ := "AWS-HMAC"
          AccessKeyID := "AKIAEXAMPLE", SecretAccessKey := " s3cr3t/+= ", Token := ""
          Expiration := "10000-01-01T00:00:00Z" } ∧
      parseRFC3339 "10000-01-01T00:00:00Z" = none) ∧
    ((getCredentials false
        (staticWorld (Except.ok sampleValue) (Except.ok halfMinuteExpiry) sampleClock)
        initialState).1
      = Outcome.returned
        { Code := "Success", LastUpdated := "2020-09-13T12:26:40Z", Type_ := "AWS-HMAC"
          AccessKeyID := "AKIAEXAMPLE", SecretAccessKey := " s3cr3t/+= ", Token := ""
          Expiration := "2020-09-13T13:27:10+00:00" } ∧
      parseRFC3339 "2020-09-13T13:27:10+00:00" = some 1600003630000000000 ∧
      halfMinuteExpiry.UnixNano = 1600003600000000000) := by
  decide

/-- C3, amended: whenever the session is built, `Get` succeeds and `ExpiresAt`
returns a time without error, the record's `Expiration` is the RFC 3339
rendering of that time and is the same whatever the clock reads. When the
reported time is one RFC 3339 can express (local year 0000-9999, zone offset a
whole number of minutes under a day), `Expiration` reads back as the reported
instant cut to the whole second, which is the reported instant when that has
no fraction of a second. -/
theorem expiration_is_reported_time (flag : Bool) (w : World) (s : State) (sess : Session)
    (creds : Value) (t : Time)
    (hs : w.NewSessionWithOptions (sessionOptions flag) = Except.ok sess)
    (hg : sess.Credentials.Get = Except.ok creds)
    (he : sess.Credentials.ExpiresAt = Except.ok t) :
    ∃ r : AwsEc2MetadataCredential,
      (getCredentials flag w s).1 = Outcome.returned r ∧
      r.Expiration = t.FormatRFC3339 ∧
      (∀ (clock : Nat → Time) (s1 : State), ∃ r1 : AwsEc2MetadataCredential,
        (getCredentials flag { w with Now := clock } s1).1 = Outcome.returned r1 ∧
        r1.Expiration = r.Expiration) ∧
      (t.inRFC3339Range →
        parseRFC3339 r.Expiration = some (t.UnixNano - t.nsec.val) ∧
        (t.nsec.val = 0 → parseRFC3339 r.Expiration = some t.UnixNano)) := by
  refine ⟨_, by rw [getCredentials_reported flag w s sess creds t hs hg he], rfl, ?_, ?_⟩
  · intro clock s1
    rw [getCredentials_reported flag { w with Now := clock } s1 sess creds t hs hg he]
    exact ⟨_, rfl, rfl⟩
  · intro hr
    constructor
    · simp only [parse_format t hr, Time.UnixNano]
      congr 1
      omega
    · intro h0
      simp only [parse_format t hr, Time.UnixNano, h0]
      congr 1
      omega

/-- Witness for C3: an expiration with half a second reads back as the whole
second before it. -/
theorem expiration_is_reported_time_witness :
    ∃ r : AwsEc2MetadataCredential,
      (getCredentials true
        (staticWorld (Except.ok sampleValue) (Except.ok halfSecondExpiry) sampleClock)
        initialState).1 = Outcome.returned r ∧
      r.Expiration = "2020-09-13T13:26:40Z" ∧
      parseRFC3339 r.Expiration = some 1600003600000000000 := by
  obtain ⟨r, h1, h2, _, h4⟩ := expiration_is_reported_time true
    (staticWorld (Except.ok sampleValue) (Except.ok halfSecondExpiry) sampleClock)
    initialState _ sampleValue halfSecondExpiry rfl rfl rfl
  exact ⟨r, h1, h2, (h4 (by decide)).1⟩

/-- C4, as stated, fails in two ways. With the clock at 9999-12-31T23:59:00Z
on both readings the fallback lies in the year 10000 and `Expiration` is no
RFC 3339 timestamp, so it denotes no instant. With both readings at the same
instant in a zone that drops its half minute before the fallback time,
`LastUpdated` reads back half a minute late and `Expiration` does not: they
are 270 seconds apart, not 300. -/
theorem expiration_fallback_unreadable :
    ((getCredentials false
        (staticWorld (Except.ok sampleValue) (Except.error "ProviderNotExpirer")
          (fun _ => lastMinuteOf9999))
        initialState).1
      = Outcome.returned
        { Code := "Success", LastUpdated := "9999-12-31T23:59:00Z", Type_ := "AWS-HMAC"
          AccessKeyID := "AKIAEXAMPLE", SecretAccessKey := " s3cr3t/+= ", Token := ""
          Expiration := "10000-01-01T00:04:00Z" } ∧
      parseRFC3339 "9999-12-31T23:59:00Z" = some 253402300740000000000 ∧
      parseRFC3339 "10000-01-01T00:04:00Z" = none) ∧
    ((getCredentials false
        (staticWorld (Except.ok sampleValue) (Except.error "ProviderNotExpirer")
          (fun _ => shiftingNow))
        initialState).1
      = Outcome.returned
        { Code := "Success", LastUpdated := "2020-09-13T12:27:10+00:00", Type_ := "AWS-HMAC"
          AccessKeyID := "AKIAEXAMPLE", SecretAccessKey := " s3cr3t/+= ", Token := ""
          Expiration := "2020-09-13T12:31:40Z" } ∧
      parseRFC3339 "2020-09-13T12:27:10+00:00" = some 1600000030000000000 ∧
      parseRFC3339 "2020-09-13T12:31:40Z" = some 1600000300000000000) := by
  decide

/-- C4, amended: whenever the session is built, `Get` succeeds and `ExpiresAt`
returns an error, `getCredentials` returns a record whose `Expiration` is the
RFC 3339 rendering of the first clock reading plus five minutes and whose
`LastUpdated` is the rendering of the second reading. When that fallback time
and the second reading are times RFC 3339 can express (local year 0000-9999,
zone offset a whole number of minutes under a day) and the second reading is
not before the first and at most one second after it, both strings read back,
and the instant of `Expiration` is not later than the instant of `LastUpdated`
plus 300 seconds and at most one second earlier. -/
theorem expiration_fallback_five_minutes (flag : Bool) (w : World) (s : State) (sess : Session)
    (creds : Value) (err : Error)
    (hs : w.NewSessionWithOptions (sessionOptions flag) = Except.ok sess)
    (hg : sess.Credentials.Get = Except.ok creds)
    (he : sess.Credentials.ExpiresAt = Except.error err) :
    ∃ r : AwsEc2MetadataCredential,
      (getCredentials flag w s).1 = Outcome.returned r ∧
      r.Expiration = ((w.Now s.clockReads).Add (Minute * 5)).FormatRFC3339 ∧
      r.LastUpdated = (w.Now (s.clockReads + 1)).FormatRFC3339 ∧
      (((w.Now s.clockReads).Add (Minute * 5)).inRFC3339Range →
        (w.Now (s.clockReads + 1)).inRFC3339Range →
        (w.Now s.clockReads).UnixNano ≤ (w.Now (s.clockReads + 1)).UnixNano →
        (w.Now (s.clockReads + 1)).UnixNano ≤ (w.Now s.clockReads).UnixNano + Second →
        ∃ e l : Int, parseRFC3339 r.Expiration = some e ∧ parseRFC3339 r.LastUpdated = some l ∧
          e ≤ l + 300 * Second ∧ l + 300 * Second - e ≤ Second) := by
  refine ⟨_, by rw [getCredentials_fallback flag w s sess creds err hs hg he], rfl, rfl, ?_⟩
  intro hr1 hr2 hle hnear
  refine ⟨_, _, parse_format _ hr1, parse_format _ hr2, ?_⟩
  obtain ⟨h300, _⟩ := add_five_minutes (w.Now s.clockReads)
  have hn1 := (w.Now s.clockReads).nsec.isLt
  have hn2 := (w.Now (s.clockReads + 1)).nsec.isLt
  simp only [Time.UnixNano, Second] at hle hnear ⊢
  rw [h300]
  omega

/-- Witness for C4: a chain without expiration and a clock that advances 0.4 s
between the two readings. -/
theorem expiration_fallback_five_minutes_witness :
    ∃ (r : AwsEc2MetadataCredential) (e l : Int),
      (getCredentials false
        (staticWorld (Except.ok sampleValue) (Except.error "ProviderNotExpirer") sampleClock)
        initialState).1 = Outcome.returned r ∧
      parseRFC3339 r.Expiration = some e ∧ parseRFC3339 r.LastUpdated = some l ∧
      e ≤ l + 300 * Second ∧ l + 300 * Second - e ≤ Second := by
  obtain ⟨r, h1, _, _, h4⟩ := expiration_fallback_five_minutes false
    (staticWorld (Except.ok sampleValue) (Except.error "ProviderNotExpirer") sampleClock)
    initialState _ sampleValue "ProviderNotExpirer" rfl rfl rfl
  obtain ⟨e, l, h5⟩ := h4 (by decide) (by decide) (by decide) (by decide)
  exact ⟨r, e, l, h1, h5⟩

/-- C8, as stated, fails in two ways. With the clock in the year 10000,
`LastUpdated` has five year digits and is no RFC 3339 timestamp. With the
clock in a zone half a minute off UTC, `LastUpdated` reads back as an instant
half a minute after the clock reading. -/
theorem lastUpdated_unreadable :
    ((getCredentials false
        (staticWorld (Except.ok sampleValue) (Except.ok halfSecondExpiry) (fun _ => year10000))
        initialState).1
      = Outcome.returned
        { Code := "Success", LastUpdated := "10000-01-01T00:00:00Z", Type_ := "AWS-HMAC"
          AccessKeyID := "AKIAEXAMPLE", SecretAccessKey := " s3cr3t/+= ", Token := ""
          Expiration := "2020-09-13T13:26:40Z" } ∧
      parseRFC3339 "10000-01-01T00:00:00Z" = none) ∧
    ((getCredentials false
        (staticWorld (Except.ok sampleValue) (Except.ok halfSecondExpiry)
          (fun _ => halfMinuteNow))
        initialState).1
      = Outcome.returned
        { Code := "Success", LastUpdated := "2020-09-13T12:27:10+00:00", Type_ := "AWS-HMAC"
          AccessKeyID := "AKIAEXAMPLE", SecretAccessKey := " s3cr3t/+= ", Token := ""
          Expiration := "2020-09-13T13:26:40Z" } ∧
      parseRFC3339 "2020-09-13T12:27:10+00:00" = some 1600000030000000000 ∧
      halfMinuteNow.UnixNano = 1600000000000000000) := by
  decide

/-- C8, amended: whenever the session is built and `Get` succeeds, `LastUpdated`
is the RFC 3339 rendering of a clock reading made inside this call of
`getCredentials`, the last call it makes, after `Get` and `ExpiresAt`. When
that reading is a time RFC 3339 can express (local year 0000-9999, zone offset
a whole number of minutes under a day), `LastUpdated` reads back as an instant
not after the reading and less than one second before it. -/
theorem lastUpdated_is_fresh_clock_reading (flag : Bool) (w : World) (s : State)
    (sess : Session) (creds : Value)
    (hs : w.NewSessionWithOptions (sessionOptions flag) = Except.ok sess)
    (hg : sess.Credentials.Get = Except.ok creds) :
    ∃ (r : AwsEc2MetadataCredential) (s1 : State) (n : Nat) (pre : List Effect),
      getCredentials flag w s = (Outcome.returned r, s1) ∧
      s.clockReads ≤ n ∧ s1.clockReads = n + 1 ∧
      s1.trace = s.trace ++ pre ++ [Effect.now] ∧ Effect.get ∈ pre ∧ Effect.expiresAt ∈ pre ∧
      r.LastUpdated = (w.Now n).FormatRFC3339 ∧
      ((w.Now n).inRFC3339Range →
        ∃ l : Int, parseRFC3339 r.LastUpdated = some l ∧
          l ≤ (w.Now n).UnixNano ∧ (w.Now n).UnixNano - l < Second) := by
  have key : ∀ n : Nat, (w.Now n).inRFC3339Range →
      ∃ l : Int, parseRFC3339 (w.Now n).FormatRFC3339 = some l ∧
        l ≤ (w.Now n).UnixNano ∧ (w.Now n).UnixNano - l < Second := by
    intro n hr
    refine ⟨_, parse_format _ hr, ?_⟩
    have hn := (w.Now n).nsec.isLt
    simp only [Time.UnixNano, Second]
    omega
  cases he : sess.Credentials.ExpiresAt with
  | ok t =>
    refine ⟨_, _, s.clockReads,
      [Effect.newSession (sessionOptions flag), Effect.get, Effect.expiresAt],
      getCredentials_reported flag w s sess creds t hs hg he, Nat.le_refl _, rfl, ?_, ?_, ?_, rfl,
      key _⟩
    · simp
    · simp
    · simp
  | error err =>
    refine ⟨_, _, s.clockReads + 1,
      [Effect.newSession (sessionOptions flag), Effect.get, Effect.expiresAt, Effect.now],
      getCredentials_fallback flag w s sess creds err hs hg he, Nat.le_succ _, rfl, ?_, ?_, ?_, rfl,
      key _⟩
    · simp
    · simp
    · simp

/-- Witness for C8: with a chain without expiration the second clock reading,
0.4 s into the second, is the one rendered. -/
theorem lastUpdated_is_fresh_clock_reading_witness :
    ∃ (r : AwsEc2MetadataCredential) (l : Int),
      (getCredentials false
        (staticWorld (Except.ok sampleValue) (Except.error "ProviderNotExpirer") sampleClock)
        initialState).1 = Outcome.returned r ∧
      r.LastUpdated = (sampleClock 1).FormatRFC3339 ∧
      parseRFC3339 r.LastUpdated = some l ∧
      l ≤ (sampleClock 1).UnixNano ∧ (sampleClock 1).UnixNano - l < Second := by
  obtain ⟨r, s1, n, pre, h1, _, h3, _, _, _, h7, h8⟩ := lastUpdated_is_fresh_clock_reading false
    (staticWorld (Except.ok sampleValue) (Except.error "ProviderNotExpirer") sampleClock)
    initialState _ sampleValue rfl rfl
  have hs1 : s1.clockReads = 2 := by
    have := congrArg (fun p => p.2.clockReads) h1
    simpa [getCredentials, staticWorld, Now, State.record, initialState] using this.symm
  have hn : n = 1 := by omega
  subst hn
  obtain ⟨l, h9⟩ := h8 (by decide)
  exact ⟨r, l, by rw [h1], h7, h9⟩

/-! ## The encoder against the JSON reader -/

/-- A hexadecimal digit of the encoder has its index as value. -/
theorem hexVal_hexDigit (a : Nat) (h : a < 16) : hexVal (hexDigit a) = some a := by
  interval_cases a <;> rfl

/-- A character that stands for itself in a JSON string. -/
theorem readStringBody_plain (c : Char) (tail : List Char) (hq : c ≠ '"') (hb : c ≠ '\\')
    (h32 : 32 ≤ c.toNat) : readStringBody (c :: tail) = consChar c (readStringBody tail) := by
  have h32' : ¬ c.toNat < 32 := by omega
  conv_lhs => unfold readStringBody
  simp only [hq, hb, h32', if_false]

/-- A two-character escape. -/
theorem readStringBody_escape (e ch : Char) (tail : List Char) (hu : e ≠ 'u')
    (he : unescape e = some ch) :
    readStringBody ('\\' :: e :: tail) = consChar ch (readStringBody tail) := by
  conv_lhs => unfold readStringBody
  simp [hu, he]

/-- A `\u` escape of a character that is not a surrogate. -/
theorem readStringBody_unicode (h1 h2 h3 h4 : Char) (a b x d : Nat) (tail : List Char)
    (e1 : hexVal h1 = some a) (e2 : hexVal h2 = some b) (e3 : hexVal h3 = some x)
    (e4 : hexVal h4 = some d)
    (hs : ¬ (55296 ≤ ((a * 16 + b) * 16 + x) * 16 + d ∧ ((a * 16 + b) * 16 + x) * 16 + d ≤ 57343)) :
    readStringBody ('\\' :: 'u' :: h1 :: h2 :: h3 :: h4 :: tail)
      = consChar (Char.ofNat (((a * 16 + b) * 16 + x) * 16 + d)) (readStringBody tail) := by
  conv_lhs => unfold readStringBody
  simp [e1, e2, e3, e4, hs]

/-- One character: what the encoder writes for it, the reader takes for it. -/
theorem readStringBody_escapeChar (c : Char) (tail : List Char) :
    readStringBody (escapeChar c ++ tail) = consChar c (readStringBody tail) := by
  unfold escapeChar
  by_cases h128 : c.toNat < 128
  · simp only [h128, if_true]
    by_cases hsafe : htmlSafe c = true
    · simp only [hsafe, if_true, List.cons_append, List.nil_append]
      simp only [htmlSafe, Bool.and_eq_true, decide_eq_true_eq, bne_iff_ne, ne_eq] at hsafe
      obtain ⟨⟨⟨⟨⟨h32, hq⟩, _⟩, _⟩, _⟩, hb⟩ := hsafe
      exact readStringBody_plain c tail hq hb h32
    · simp only [hsafe, Bool.false_eq_true, if_false]
      by_cases hbq : c = '\\' ∨ c = '"'
      · simp only [hbq, if_true, List.cons_append, List.nil_append]
        rcases hbq with rfl | rfl
        · exact readStringBody_escape _ _ _ (by decide) rfl
        · exact readStringBody_escape _ _ _ (by decide) rfl
      · simp only [hbq, if_false]
        by_cases hbs : c = Char.ofNat 8
        · subst hbs
          exact readStringBody_escape _ _ _ (by decide) rfl
        simp only [hbs, if_false]
        by_cases hff : c = Char.ofNat 12
        · subst hff
          exact readStringBody_escape _ _ _ (by decide) rfl
        simp only [hff, if_false]
        by_cases hn : c = '\n'
        · subst hn
          exact readStringBody_escape _ _ _ (by decide) rfl
        · simp only [hn, if_false]
          by_cases hr : c = '\r'
          · subst hr
            exact readStringBody_escape _ _ _ (by decide) rfl
          · simp only [hr, if_false]
            by_cases ht : c = '\t'
            · subst ht
              exact readStringBody_escape _ _ _ (by decide) rfl
            · simp only [ht, if_false, List.cons_append, List.nil_append]
              have hv : (((0 * 16 + 0) * 16 + c.toNat / 16) * 16 + c.toNat % 16) = c.toNat := by
                omega
              have := readStringBody_unicode '0' '0' (hexDigit (c.toNat / 16))
                (hexDigit (c.toNat % 16)) 0 0 (c.toNat / 16) (c.toNat % 16) tail rfl rfl
                (hexVal_hexDigit _ (by omega)) (hexVal_hexDigit _ (by omega)) (by omega)
              rw [this, hv, Char.ofNat_toNat]
  · simp only [h128, if_false]
    by_cases hls : c = '\u2028' ∨ c = '\u2029'
    · simp only [hls, if_true, List.cons_append, List.nil_append]
      rcases hls with rfl | rfl
      · exact readStringBody_unicode '2' '0' '2' _ 2 0 2 8 tail rfl rfl rfl rfl (by decide)
      · exact readStringBody_unicode '2' '0' '2' _ 2 0 2 9 tail rfl rfl rfl rfl (by decide)
    · simp only [hls, if_false, List.cons_append, List.nil_append]
      refine readStringBody_plain c tail ?_ ?_ (by omega)
      · rintro rfl
        exact h128 (by decide)
      · rintro rfl
        exact h128 (by decide)

/-- The scalar values of characters: below the surrogates, or above them and
at most U+10FFFF. -/
theorem char_range (c : Char) :
    c.toNat < 0xD800 ∨ (0xDFFF < c.toNat ∧ c.toNat < 0x110000) := by
  have h := c.valid
  simpa [UInt32.isValidChar, Nat.isValidChar, Char.toNat] using h

/-- A byte written from a number below 256 is that number. -/
theorem byte_val (n : Nat) (h : n < 256) : ((Fin.ofNat n : Fin 256)).val = n := by
  simp [Fin.ofNat, Nat.mod_eq_of_lt h]

/-- Decoding the UTF-8 encoding of a character gives the character back and
consumes exactly its bytes. -/
theorem decodeRune_utf8EncodeChar (c : Char) (rest : List (Fin 256)) :
    decodeRune (utf8EncodeChar c ++ rest) = some (c, rest) := by
  have hr := char_range c
  unfold utf8EncodeChar
  simp only []
  by_cases h1 : c.toNat < 0x80
  · simp only [h1, if_true, List.cons_append, List.nil_append, decodeRune,
      byte_val c.toNat (by omega), Char.ofNat_toNat]
  · simp only [h1, if_false]
    by_cases h2 : c.toNat < 0x800
    · have e0 := byte_val (0xC0 + c.toNat / 64) (by omega)
      have e1 := byte_val (0x80 + c.toNat % 64) (by omega)
      simp only [h2, if_true, List.cons_append, List.nil_append, decodeRune, e0, e1]
      have c0 : ¬ (0xC0 + c.toNat / 64 < 0x80) := by omega
      have c1 : 0xC2 ≤ 0xC0 + c.toNat / 64 ∧ 0xC0 + c.toNat / 64 ≤ 0xDF := by omega
      have c2 : 0x80 ≤ 0x80 + c.toNat % 64 ∧ 0x80 + c.toNat % 64 ≤ 0xBF := by omega
      have v : (0xC0 + c.toNat / 64 - 0xC0) * 64 + (0x80 + c.toNat % 64 - 0x80) = c.toNat := by
        omega
      simp only [c0, c1, c2, and_self, if_true, if_false, v, Char.ofNat_toNat]
    · simp only [h2, if_false]
      by_cases h3 : c.toNat < 0x10000
      · have e0 := byte_val (0xE0 + c.toNat / 4096) (by omega)
        have e1 := byte_val (0x80 + c.toNat / 64 % 64) (by omega)
        have e2 := byte_val (0x80 + c.toNat % 64) (by omega)
        simp only [h3, if_true, List.cons_append, List.nil_append, decodeRune, e0, e1, e2]
        have c0 : ¬ (0xE0 + c.toNat / 4096 < 0x80) := by omega
        have c1 : ¬ (0xC2 ≤ 0xE0 + c.toNat / 4096 ∧ 0xE0 + c.toNat / 4096 ≤ 0xDF) := by omega
        have c2 : 0xE0 ≤ 0xE0 + c.toNat / 4096 ∧ 0xE0 + c.toNat / 4096 ≤ 0xEF := by omega
        have c3 : (if 0xE0 + c.toNat / 4096 = 0xE0 then 0xA0 else 0x80) ≤ 0x80 + c.toNat / 64 % 64
            ∧ 0x80 + c.toNat / 64 % 64 ≤ (if 0xE0 + c.toNat / 4096 = 0xED then 0x9F else 0xBF)
            ∧ 0x80 ≤ 0x80 + c.toNat % 64 ∧ 0x80 + c.toNat % 64 ≤ 0xBF := by
          refine ⟨?_, ?_, by omega, by omega⟩
          · split <;> omega
          · split <;> omega
        have v : ((0xE0 + c.toNat / 4096 - 0xE0) * 64 + (0x80 + c.toNat / 64 % 64 - 0x80)) * 64
            + (0x80 + c.toNat % 64 - 0x80) = c.toNat := by omega
        simp only [c0, c1, c2, c3, and_self, if_true, if_false, v, Char.ofNat_toNat]
      · have e0 := byte_val (0xF0 + c.toNat / 262144) (by omega)
        have e1 := byte_val (0x80 + c.toNat / 4096 % 64) (by omega)
        have e2 := byte_val (0x80 + c.toNat / 64 % 64) (by omega)
        have e3 := byte_val (0x80 + c.toNat % 64) (by omega)
        simp only [h3, if_false, List.cons_append, List.nil_append, decodeRune, e0, e1, e2, e3]
        have c0 : ¬ (0xF0 + c.toNat / 262144 < 0x80) := by omega
        have c1 : ¬ (0xC2 ≤ 0xF0 + c.toNat / 262144 ∧ 0xF0 + c.toNat / 262144 ≤ 0xDF) := by omega
        have c2 : ¬ (0xE0 ≤ 0xF0 + c.toNat / 262144 ∧ 0xF0 + c.toNat / 262144 ≤ 0xEF) := by omega
        have c3 : 0xF0 ≤ 0xF0 + c.toNat / 262144 ∧ 0xF0 + c.toNat / 262144 ≤ 0xF4 := by omega
        have c4 : (if 0xF0 + c.toNat / 262144 = 0xF0 then 0x90 else 0x80)
              ≤ 0x80 + c.toNat / 4096 % 64
            ∧ 0x80 + c.toNat / 4096 % 64
              ≤ (if 0xF0 + c.toNat / 262144 = 0xF4 then 0x8F else 0xBF)
            ∧ 0x80 ≤ 0x80 + c.toNat / 64 % 64 ∧ 0x80 + c.toNat / 64 % 64 ≤ 0xBF
            ∧ 0x80 ≤ 0x80 + c.toNat % 64 ∧ 0x80 + c.toNat % 64 ≤ 0xBF := by
          refine ⟨?_, ?_, by omega, by omega, by omega, by omega⟩
          · split <;> omega
          · split <;> omega
        have v : (((0xF0 + c.toNat / 262144 - 0xF0) * 64 + (0x80 + c.toNat / 4096 % 64 - 0x80)) * 64
            + (0x80 + c.toNat / 64 % 64 - 0x80)) * 64 + (0x80 + c.toNat % 64 - 0x80)
            = c.toNat := by omega
        simp only [c0, c1, c2, c3, c4, and_self, if_true, if_false, v, Char.ofNat_toNat]

/-- The encoding of a character has at least one byte. -/
theorem utf8EncodeChar_cons (c : Char) : ∃ b tl, utf8EncodeChar c = b :: tl := by
  unfold utf8EncodeChar
  simp only []
  split_ifs <;> exact ⟨_, _, rfl⟩

/-- The characters of the UTF-8 encoding of a text are the text. -/
theorem runesOf_utf8Encode (cs : List Char) (fuel : Nat)
    (hf : (utf8Encode cs).length ≤ fuel) :
    runesOf fuel (utf8Encode cs) = cs := by
  induction cs generalizing fuel with
  | nil => cases fuel <;> simp [utf8Encode, runesOf]
  | cons c cs ih =>
    obtain ⟨b, tl, hb⟩ := utf8EncodeChar_cons c
    have hdec := decodeRune_utf8EncodeChar c (utf8Encode cs)
    simp only [utf8Encode, hb, List.cons_append, List.length_cons, List.length_append] at hf hdec ⊢
    obtain ⟨f, rfl⟩ : ∃ f, fuel = f + 1 := ⟨fuel - 1, by omega⟩
    simp only [runesOf, hdec]
    rw [ih f (by omega)]

/-- The text of a Go string that holds a text is that text. -/
theorem toText_ofString (s : String) : (GoString.ofString s).toText = s := by
  simp only [GoString.toText, GoString.ofString]
  rw [runesOf_utf8Encode s.data _ (Nat.le_refl _)]

/-- The escape the encoder writes for a byte that does not decode is read as
U+FFFD. -/
theorem readStringBody_replacement (tail : List Char) :
    readStringBody ('\\' :: 'u' :: 'f' :: 'f' :: 'f' :: 'd' :: tail)
      = consChar (Char.ofNat 0xFFFD) (readStringBody tail) :=
  readStringBody_unicode 'f' 'f' 'f' 'd' 15 15 15 13 tail rfl rfl rfl rfl (by decide)

/-- A whole string body up to its closing quote: the reader takes what the
encoder wrote for a sequence of bytes for the characters of that sequence. -/
theorem readStringBody_escapeBytes (fuel : Nat) (bs : List (Fin 256)) (rest : List Char) :
    readStringBody (escapeBytes fuel bs ++ '"' :: rest) = some (runesOf fuel bs, rest) := by
  have hnil : readStringBody ('"' :: rest) = some ([], rest) := by
    conv_lhs => unfold readStringBody
    simp
  induction fuel generalizing bs with
  | zero => simpa only [escapeBytes, runesOf, List.nil_append] using hnil
  | succ f ih =>
    cases bs with
    | nil => simpa only [escapeBytes, runesOf, List.nil_append] using hnil
    | cons b bs1 =>
      cases hd : decodeRune (b :: bs1) with
      | none =>
        simp only [escapeBytes, runesOf, hd, List.cons_append]
        rw [readStringBody_replacement, ih]
        rfl
      | some p =>
        obtain ⟨c, rest1⟩ := p
        simp only [escapeBytes, runesOf, hd, List.append_assoc]
        rw [readStringBody_escapeChar, ih]
        rfl

/-- The reader takes a string the encoder wrote for the text of the string. -/
theorem readString_jsonString (g : GoString) (rest : List Char) :
    readString (jsonString g ++ rest) = some (g.toText, rest) := by
  have h := readStringBody_escapeBytes g.bytes.length g.bytes rest
  simp only [jsonString, List.cons_append, List.append_assoc, List.singleton_append, readString,
    if_true, List.nil_append, h, GoString.toText]

/-- Nothing is skipped before a character that is not white space. -/
theorem skipWs_of_not_ws (c : Char) (cs : List Char) (h : isWs c = false) :
    skipWs (c :: cs) = c :: cs := by
  simp [skipWs, h]

/-- Nothing is skipped before an encoded string. -/
theorem skipWs_jsonString (g : GoString) (rest : List Char) :
    skipWs (jsonString g ++ rest) = jsonString g ++ rest := by
  simp only [jsonString, List.cons_append]
  exact skipWs_of_not_ws _ _ (by decide)

/-- The last member of an object. -/
theorem readMembers_last (fuel : Nat) (k : String) (v : GoString) (rest : List Char) :
    readMembers (fuel + 1)
        (jsonString (GoString.ofString k) ++ ':' :: (jsonString v ++ '}' :: rest))
      = some ([(k, v.toText)], rest) := by
  unfold readMembers
  rw [skipWs_jsonString, readString_jsonString, toText_ofString]
  simp only [skipWs_of_not_ws ':' _ (by decide), if_true]
  rw [skipWs_jsonString, readString_jsonString]
  simp only [skipWs_of_not_ws '}' _ (by decide), if_true]

/-- A member followed by more members. -/
theorem readMembers_more (fuel : Nat) (k : String) (v : GoString) (rest rest1 : List Char)
    (ms : List (String × String)) (h : readMembers fuel rest = some (ms, rest1)) :
    readMembers (fuel + 1)
        (jsonString (GoString.ofString k) ++ ':' :: (jsonString v ++ ',' :: rest))
      = some ((k, v.toText) :: ms, rest1) := by
  conv_lhs => unfold readMembers
  rw [skipWs_jsonString, readString_jsonString, toText_ofString]
  simp only [skipWs_of_not_ws ':' _ (by decide), if_true]
  rw [skipWs_jsonString, readString_jsonString]
  have hne : ¬ (',' = '}') := by decide
  simp only [skipWs_of_not_ws ',' _ (by decide), hne, if_false, if_true, h]

/-- The encoded members are at least as many characters as members. -/
theorem length_le_jsonMembers (ms : List (String × GoString)) :
    ms.length ≤ (jsonMembers ms).length := by
  induction ms with
  | nil => simp
  | cons kv rest ih =>
    cases rest with
    | nil => simp [jsonMembers, jsonString]
    | cons kv2 rest2 =>
      simp only [jsonMembers, List.length_append, List.length_cons] at ih ⊢
      omega

/-- The reader takes the members the encoder wrote for the members themselves,
in order, each value as its text. -/
theorem readMembers_jsonMembers (ms : List (String × GoString)) (hne : ms ≠ [])
    (fuel : Nat) (hf : ms.length ≤ fuel) (rest : List Char) :
    readMembers fuel (jsonMembers ms ++ '}' :: rest)
      = some (ms.map (fun kv => (kv.1, kv.2.toText)), rest) := by
  induction ms generalizing fuel with
  | nil => exact absurd rfl hne
  | cons kv tail ih =>
    obtain ⟨f, rfl⟩ : ∃ f, fuel = f + 1 := ⟨fuel - 1, by simp at hf; omega⟩
    cases tail with
    | nil =>
      simp only [List.map, jsonMembers, List.append_assoc, List.cons_append]
      exact readMembers_last f kv.1 kv.2 rest
    | cons kv2 tail2 =>
      have ih' := ih (by simp) f (by simp at hf ⊢; omega)
      simp only [List.map, jsonMembers, List.append_assoc, List.cons_append] at ih' ⊢
      exact readMembers_more f kv.1 kv.2 _ rest _ ih'

/-- The members the encoder writes begin with a quote. -/
theorem jsonMembers_head (ms : List (String × GoString)) (hne : ms ≠ []) (rest : List Char) :
    ∃ tl, jsonMembers ms ++ rest = '"' :: tl := by
  cases ms with
  | nil => exact absurd rfl hne
  | cons kv tail =>
    cases tail with
    | nil => exact ⟨_, by simp only [jsonMembers, jsonString, List.cons_append]; rfl⟩
    | cons kv2 tail2 => exact ⟨_, by simp only [jsonMembers, jsonString, List.cons_append]; rfl⟩

/-- The reader takes an object the encoder wrote, newline included, for its
members. -/
theorem readObject_encoded (ms : List (String × GoString)) (hne : ms ≠ []) :
    readObject ('{' :: (jsonMembers ms ++ ['}', '\n']))
      = some (ms.map (fun kv => (kv.1, kv.2.toText))) := by
  have hlen : ms.length ≤ (jsonMembers ms ++ ['}', '\n']).length := by
    have := length_le_jsonMembers ms
    simp only [List.length_append] at this ⊢
    omega
  have hread := readMembers_jsonMembers ms hne _ hlen ['\n']
  obtain ⟨tl, htl⟩ := jsonMembers_head _ hne ['}', '\n']
  unfold readObject
  rw [skipWs_of_not_ws '{' _ (by decide)]
  simp only [if_true]
  rw [hread]
  rw [htl, skipWs_of_not_ws '"' _ (by decide)]
  have hq : ¬ ('"' = '}') := by decide
  have hnl : skipWs ['\n'] = [] := by decide
  simp only [hq, if_false, hnl, if_true]

/-- The body `Encode` writes reads back as exactly the seven members of the
struct, each with the text of its value. -/
theorem readObject_Encode (r : AwsEc2MetadataCredential) :
    readObject (Encode r)
      = some [("Code", r.Code), ("LastUpdated", r.LastUpdated), ("Type", r.Type_),
          ("AccessKeyId", r.AccessKeyID.toText), ("SecretAccessKey", r.SecretAccessKey.toText),
          ("Token", r.Token.toText), ("Expiration", r.Expiration)] := by
  have h := readObject_encoded r.fields (by simp [AwsEc2MetadataCredential.fields])
  simpa [Encode, AwsEc2MetadataCredential.fields, toText_ofString] using h

/-! ## The router and the handler -/

/-- The canonical form of a path begins with a slash. -/
theorem cleanPath_head (p : List Char) : ∃ tl, cleanPath p = '/' :: tl := by
  unfold cleanPath
  by_cases h : p = []
  · exact ⟨[], by simp [h]⟩
  · simp only [h, if_false, pathClean]
    split_ifs
    · exact ⟨_, by rw [List.cons_append]⟩
    · exact ⟨_, rfl⟩
    · exact ⟨_, by rw [List.cons_append]⟩
    · exact ⟨_, rfl⟩

/-- A request whose path is in canonical form passes the path matcher of the
route. -/
theorem matchesPath_of_clean (req : Request) (hp : cleanPath req.Path.data = req.Path.data) :
    credentialRoute.matchesPath req = true := by
  obtain ⟨tl, htl⟩ := cleanPath_head req.Path.data
  rw [hp] at htl
  simp [Route.matchesPath, credentialRoute, htl]

/-- What the handler leaves behind when `getCredentials` returns a record. -/
theorem credentialHandler_returned (flag : Bool) (w : World) (s s1 : State)
    (r : AwsEc2MetadataCredential) (h : getCredentials flag w s = (Outcome.returned r, s1)) :
    credentialHandler flag w ResponseWriter.new s =
      { outcome := Outcome.returned ()
        rw := { header := [("Content-Type", "application/json")], status := some 200
                body := Encode r }
        state := s1 } := by
  simp [credentialHandler, h, ResponseWriter.new, ResponseWriter.setHeader,
    ResponseWriter.WriteHeader, ResponseWriter.Write]

/-- A `GET` for a path in canonical form goes to the handler. -/
theorem ServeHTTP_get_canonical (flag : Bool) (w : World) (req : Request) (rw : ResponseWriter)
    (s : State) (hm : req.Method = "GET") (hp : cleanPath req.Path.data = req.Path.data) :
    ServeHTTP flag w req rw s = credentialHandler flag w rw s := by
  have hmm : credentialRoute.matchesMethod req = true := by
    simp [Route.matchesMethod, credentialRoute, hm]
  simp only [ServeHTTP, hp, ne_eq, not_true_eq_false, if_false, matchesPath_of_clean req hp,
    hmm, if_true]

/-- A request for a path that is not in canonical form is answered by the
router itself, whatever its method. -/
theorem ServeHTTP_not_canonical (flag : Bool) (w : World) (req : Request) (rw : ResponseWriter)
    (s : State) (hp : cleanPath req.Path.data ≠ req.Path.data) :
    ServeHTTP flag w req rw s =
      { outcome := Outcome.returned ()
        rw := (rw.setHeader "Location" (String.mk (cleanPath req.Path.data))).WriteHeader 301
        state := s } := by
  simp only [ServeHTTP, hp, ne_eq, not_false_eq_true, if_true]

/-- C1, as stated, fails in two ways. A `GET` for `/latest//meta-data`, a path
that is not in canonical form, with a chain that resolves, is answered with
status 301, without `Content-Type` and without a body, and `getCredentials` is
not called. And a `GET` for `/foo/bar` with a chain whose access key is the
byte `0xff` is answered 200 with a body whose member `AccessKeyId` holds
U+FFFD, which is not the value of the record. -/
theorem serve_get_counterexamples :
    ((∃ sess : Session,
        resolvingWorld.NewSessionWithOptions (sessionOptions false) = Except.ok sess ∧
        sess.Credentials.Get = Except.ok sampleValue) ∧
      (ServeHTTP false resolvingWorld
        { Method := "GET", Path := "/latest//meta-data" } ResponseWriter.new initialState).rw.status
          = some 301 ∧
      (ServeHTTP false resolvingWorld
        { Method := "GET", Path := "/latest//meta-data" } ResponseWriter.new
          initialState).rw.getHeader "Content-Type" = none ∧
      (ServeHTTP false resolvingWorld
        { Method := "GET", Path := "/latest//meta-data" } ResponseWriter.new initialState).rw.body
          = [] ∧
      (ServeHTTP false resolvingWorld
        { Method := "GET", Path := "/latest//meta-data" } ResponseWriter.new initialState).state
          = initialState) ∧
    (∃ (r : AwsEc2MetadataCredential) (s1 : State),
      getCredentials false badByteWorld initialState = (Outcome.returned r, s1) ∧
      r.AccessKeyID = { bytes := [255] } ∧
      (ServeHTTP false badByteWorld
        { Method := "GET", Path := "/foo/bar" } ResponseWriter.new initialState).rw.status
          = some 200 ∧
      readObject (ServeHTTP false badByteWorld
        { Method := "GET", Path := "/foo/bar" } ResponseWriter.new initialState).rw.body
        = some [("Code", r.Code), ("LastUpdated", r.LastUpdated), ("Type", r.Type_),
            ("AccessKeyId", String.mk [Char.ofNat 0xFFFD]), ("SecretAccessKey", "s3cr3t"),
            ("Token", ""), ("Expiration", r.Expiration)] ∧
      GoString.ofString (String.mk [Char.ofNat 0xFFFD]) ≠ r.AccessKeyID) := by
  refine ⟨⟨⟨_, rfl, rfl⟩, ?_⟩, ?_⟩
  · rw [ServeHTTP_not_canonical _ _ _ _ _ (by decide)]
    exact ⟨rfl, by decide, rfl, rfl⟩
  · obtain ⟨r, s1, hr, _, _, ha, hk, ht⟩ := getCredentials_ok false badByteWorld initialState _
      badByteValue rfl rfl
    have ha2 : r.AccessKeyID = { bytes := [255] } := ha
    have hk2 : r.SecretAccessKey = GoString.ofString "s3cr3t" := hk
    have ht2 : r.Token = GoString.ofString "" := ht
    refine ⟨r, s1, hr, ha2, ?_, ?_, ?_⟩
    · rw [ServeHTTP_get_canonical _ _ _ _ _ rfl (by decide),
        credentialHandler_returned _ _ _ s1 r hr]
    · rw [ServeHTTP_get_canonical _ _ _ _ _ rfl (by decide),
        credentialHandler_returned _ _ _ s1 r hr]
      simp only []
      rw [readObject_Encode, ha2, hk2, ht2, toText_ofString, toText_ofString]
      rfl
    · rw [ha2]
      decide

/-- C1, amended. For every `GET` request whose path is in the router's
canonical form (it is its own `cleanPath`: a leading slash and no empty, `.`
or `..` element), when the session is built and `Get` succeeds the response
has status 200, the header `Content-Type: application/json`, and a body that
is the encoding of the record `getCredentials` returned: read as JSON it is one
object with exactly the members `Code`, `LastUpdated`, `Type`, `AccessKeyId`,
`SecretAccessKey`, `Token` and `Expiration`, each holding the text of the
record's value, which is the value itself whenever the three values copied
from the chain are valid UTF-8 (a byte of them that is not part of a valid
sequence is held as U+FFFD). For every `GET` request whose path is not in
canonical form the response has status 301 and no body, and `getCredentials`
is not called: the state of the program is unchanged and the result does not
depend on the flag, the provider chain or the clock. -/
theorem serve_get_canonical_path (flag : Bool) (w : World) (s : State) (req : Request)
    (hm : req.Method = "GET") :
    (cleanPath req.Path.data = req.Path.data →
      ∀ (sess : Session) (creds : Value),
        w.NewSessionWithOptions (sessionOptions flag) = Except.ok sess →
        sess.Credentials.Get = Except.ok creds →
        ∃ (r : AwsEc2MetadataCredential) (s1 : State),
          getCredentials flag w s = (Outcome.returned r, s1) ∧
          (ServeHTTP flag w req ResponseWriter.new s).outcome = Outcome.returned () ∧
          (ServeHTTP flag w req ResponseWriter.new s).state = s1 ∧
          (ServeHTTP flag w req ResponseWriter.new s).rw.status = some 200 ∧
          (ServeHTTP flag w req ResponseWriter.new s).rw.getHeader "Content-Type"
            = some "application/json" ∧
          (ServeHTTP flag w req ResponseWriter.new s).rw.body = Encode r ∧
          readObject (ServeHTTP flag w req ResponseWriter.new s).rw.body
            = some [("Code", r.Code), ("LastUpdated", r.LastUpdated), ("Type", r.Type_),
                ("AccessKeyId", r.AccessKeyID.toText),
                ("SecretAccessKey", r.SecretAccessKey.toText),
                ("Token", r.Token.toText), ("Expiration", r.Expiration)] ∧
          (∀ ak sk tok : String, r.AccessKeyID = GoString.ofString ak →
            r.SecretAccessKey = GoString.ofString sk → r.Token = GoString.ofString tok →
            readObject (ServeHTTP flag w req ResponseWriter.new s).rw.body
              = some [("Code", r.Code), ("LastUpdated", r.LastUpdated), ("Type", r.Type_),
                  ("AccessKeyId", ak), ("SecretAccessKey", sk), ("Token", tok),
                  ("Expiration", r.Expiration)])) ∧
    (cleanPath req.Path.data ≠ req.Path.data →
      (ServeHTTP flag w req ResponseWriter.new s).outcome = Outcome.returned () ∧
      (ServeHTTP flag w req ResponseWriter.new s).state = s ∧
      (ServeHTTP flag w req ResponseWriter.new s).rw.status = some 301 ∧
      (ServeHTTP flag w req ResponseWriter.new s).rw.body = [] ∧
      ∀ (flag1 : Bool) (w1 : World),
        ServeHTTP flag1 w1 req ResponseWriter.new s
          = ServeHTTP flag w req ResponseWriter.new s) := by
  constructor
  · intro hp sess creds hs hg
    obtain ⟨r, s1, hr, _⟩ := getCredentials_ok flag w s sess creds hs hg
    rw [ServeHTTP_get_canonical flag w req _ s hm hp, credentialHandler_returned flag w s s1 r hr]
    refine ⟨r, s1, hr, rfl, rfl, rfl, rfl, rfl, readObject_Encode r, ?_⟩
    intro ak sk tok ha hk ht
    simp only []
    rw [readObject_Encode, ha, hk, ht, toText_ofString, toText_ofString, toText_ofString]
  · intro hp
    refine ⟨?_, ?_, ?_, ?_, ?_⟩
    · rw [ServeHTTP_not_canonical _ _ _ _ _ hp]
    · rw [ServeHTTP_not_canonical _ _ _ _ _ hp]
    · rw [ServeHTTP_not_canonical _ _ _ _ _ hp]; rfl
    · rw [ServeHTTP_not_canonical _ _ _ _ _ hp]; rfl
    · intro flag1 w1
      rw [ServeHTTP_not_canonical _ _ _ _ _ hp, ServeHTTP_not_canonical _ _ _ _ _ hp]

/-- Witness for C1: the paths `/` and `/foo/bar` are canonical, and a `GET` for
`/foo/bar` is answered 200 with the seven members, the three copied values as
they are; the path `/latest//meta-data` is not canonical, and a `GET` for it is
answered 301 with the state untouched. -/
theorem serve_get_canonical_path_witness :
    cleanPath "/".data = "/".data ∧ cleanPath "/foo/bar".data = "/foo/bar".data ∧
    (∃ (r : AwsEc2MetadataCredential) (s1 : State),
      getCredentials false resolvingWorld initialState = (Outcome.returned r, s1) ∧
      (ServeHTTP false resolvingWorld
        { Method := "GET", Path := "/foo/bar" } ResponseWriter.new initialState).rw.status
          = some 200 ∧
      readObject (ServeHTTP false resolvingWorld
        { Method := "GET", Path := "/foo/bar" } ResponseWriter.new initialState).rw.body
        = some [("Code", r.Code), ("LastUpdated", r.LastUpdated), ("Type", r.Type_),
            ("AccessKeyId", "AKIAEXAMPLE"), ("SecretAccessKey", " s3cr3t/+= "),
            ("Token", ""), ("Expiration", r.Expiration)]) ∧
    cleanPath "/latest//meta-data".data ≠ "/latest//meta-data".data ∧
    (ServeHTTP false resolvingWorld
      { Method := "GET", Path := "/latest//meta-data" } ResponseWriter.new initialState).rw.status
        = some 301 ∧
    (ServeHTTP false resolvingWorld
      { Method := "GET", Path := "/latest//meta-data" } ResponseWriter.new initialState).state
        = initialState := by
  have hbad := (serve_get_canonical_path false resolvingWorld initialState
    { Method := "GET", Path := "/latest//meta-data" } rfl).2 (by decide)
  obtain ⟨r, s1, h1, _, _, h4, _, _, _, h8⟩ := (serve_get_canonical_path false resolvingWorld initialState
    { Method := "GET", Path := "/foo/bar" } rfl).1 (by decide) _ sampleValue rfl rfl
  obtain ⟨r2, s2, hr2, _, _, ha, hk, ht⟩ := getCredentials_ok false resolvingWorld initialState _
    sampleValue rfl rfl
  have hrr : r2 = r := by
    have := hr2.symm.trans h1
    simp only [Prod.mk.injEq, Outcome.returned.injEq] at this
    exact this.1
  subst hrr
  exact ⟨by decide, by decide, ⟨r2, s1, h1, h4, h8 _ _ _ ha hk ht⟩, by decide, hbad.2.2.1,
    hbad.2.1⟩

/-- C9: for every request whose method is not `GET`, whatever its path, the
method matcher of the credential route fails; serving the request returns
without calling `getCredentials`: the state of the program (clock readings and
calls made) is unchanged, and the result is the same for every flag and every
provider chain and clock. On a fresh response the status is 301, 405 or 404. -/
theorem serve_other_method_skips_getCredentials (flag : Bool) (w : World) (req : Request) (rw : ResponseWriter) (s : State)
    (hm : req.Method ≠ "GET") :
    credentialRoute.matchesMethod req = false ∧
    (ServeHTTP flag w req rw s).outcome = Outcome.returned () ∧
    (ServeHTTP flag w req rw s).state = s ∧
    (∀ (flag1 : Bool) (w1 : World), ServeHTTP flag1 w1 req rw s = ServeHTTP flag w req rw s) ∧
    ((ServeHTTP flag w req ResponseWriter.new s).rw.status = some 301 ∨
      (ServeHTTP flag w req ResponseWriter.new s).rw.status = some 405 ∨
      (ServeHTTP flag w req ResponseWriter.new s).rw.status = some 404) := by
  have hmm : credentialRoute.matchesMethod req = false := by
    simp [Route.matchesMethod, credentialRoute, hm]
  have hform : ∀ (flag1 : Bool) (w1 : World) (rw1 : ResponseWriter),
      ServeHTTP flag1 w1 req rw1 s =
        if cleanPath req.Path.data ≠ req.Path.data then
          { outcome := Outcome.returned ()
            rw := (rw1.setHeader "Location" (String.mk (cleanPath req.Path.data))).WriteHeader 301
            state := s }
        else if credentialRoute.matchesPath req = true then
          { outcome := Outcome.returned (), rw := rw1.WriteHeader 405, state := s }
        else
          { outcome := Outcome.returned ()
            rw := (((rw1.setHeader "Content-Type" "text/plain; charset=utf-8").setHeader
              "X-Content-Type-Options" "nosniff").WriteHeader 404).Write
                "404 page not found\n".data
            state := s } := by
    intro flag1 w1 rw1
    simp only [ServeHTTP, hmm, Bool.false_eq_true, if_false]
  refine ⟨hmm, ?_, ?_, ?_, ?_⟩
  · rw [hform]; split_ifs <;> rfl
  · rw [hform]; split_ifs <;> rfl
  · intro flag1 w1; rw [hform, hform]
  · rw [hform]
    split_ifs
    · exact Or.inl rfl
    · exact Or.inr (Or.inl rfl)
    · exact Or.inr (Or.inr rfl)

/-- Witness for C9: a `POST` to `/foo/bar` is answered 405 and leaves the state
untouched. -/
theorem serve_other_method_skips_getCredentials_witness :
    (ServeHTTP false
        (staticWorld (Except.ok sampleValue) (Except.ok halfSecondExpiry) sampleClock)
        { Method := "POST", Path := "/foo/bar" } ResponseWriter.new initialState).state
      = initialState ∧
    (ServeHTTP false
        (staticWorld (Except.ok sampleValue) (Except.ok halfSecondExpiry) sampleClock)
        { Method := "POST", Path := "/foo/bar" } ResponseWriter.new initialState).rw
      = { header := [], status := some 405, body := [] } :=
  ⟨(serve_other_method_skips_getCredentials false
      (staticWorld (Except.ok sampleValue) (Except.ok halfSecondExpiry) sampleClock)
      { Method := "POST", Path := "/foo/bar" } ResponseWriter.new initialState
      (by decide)).2.2.1, by decide⟩

/-! ## The life of the process -/

/-- The steps out of a running state, listed. -/
theorem step_running (a : Nat) (e : Event) (s1 : Lifecycle)
    (h : step (Lifecycle.Running a) e = some s1) :
    (e = Event.accept ∧ s1 = Lifecycle.Running (a + 1)) ∨
    (e = Event.requestDone ∧ ∃ n, a = n + 1 ∧ s1 = Lifecycle.Running n) ∨
    (e = Event.requestFatal ∧ 0 < a ∧ s1 = Lifecycle.Stopped 1) ∨
    (e = Event.interrupt ∧ s1 = Lifecycle.Draining a 0) ∨
    (∃ d : Duration, e = Event.tick d ∧ 0 < d ∧ s1 = Lifecycle.Running a) := by
  cases e with
  | accept => cases a <;> simp [step] at h <;> simp [← h]
  | requestDone => cases a <;> simp [step] at h; simp [← h]
  | requestFatal => cases a <;> simp [step] at h; simp [← h]
  | interrupt => cases a <;> simp [step] at h <;> simp [← h]
  | tick d =>
    have h2 : (if 0 < d then some (Lifecycle.Running a) else none) = some s1 := by
      cases a <;> simpa [step] using h
    split at h2
    · rename_i hd
      simp only [Option.some.injEq] at h2
      exact Or.inr (Or.inr (Or.inr (Or.inr ⟨d, rfl, hd, h2.symm⟩)))
    · simp at h2
  | shutdownReturns => cases a <;> simp [step] at h

/-- The steps out of a draining state, listed. -/
theorem step_draining (a : Nat) (t : Duration) (e : Event) (s1 : Lifecycle)
    (h : step (Lifecycle.Draining a t) e = some s1) :
    (e = Event.requestDone ∧ ∃ n, a = n + 1 ∧ s1 = Lifecycle.Draining n t) ∨
    (e = Event.requestFatal ∧ 0 < a ∧ s1 = Lifecycle.Stopped 1) ∨
    (e = Event.interrupt ∧ s1 = Lifecycle.Draining a t) ∨
    (∃ d : Duration, e = Event.tick d ∧ 0 < d ∧ s1 = Lifecycle.Draining a (t + d)) ∨
    (e = Event.shutdownReturns ∧ (a = 0 ∨ shutdownTimeout ≤ t) ∧ s1 = Lifecycle.Stopped 0) := by
  cases e with
  | accept => cases a <;> simp [step] at h
  | requestDone => cases a <;> simp [step] at h; simp [← h]
  | requestFatal => cases a <;> simp [step] at h; simp [← h]
  | interrupt => cases a <;> simp [step] at h <;> simp [← h]
  | tick d =>
    have h2 : (if 0 < d then some (Lifecycle.Draining a (t + d)) else none) = some s1 := by
      cases a <;> simpa [step] using h
    split at h2
    · rename_i hd
      simp only [Option.some.injEq] at h2
      exact Or.inr (Or.inr (Or.inr (Or.inl ⟨d, rfl, hd, h2.symm⟩)))
    · simp at h2
  | shutdownReturns =>
    have h2 : (if a = 0 ∨ shutdownTimeout ≤ t then some (Lifecycle.Stopped 0) else none)
        = some s1 := by
      cases a <;> simpa [step] using h
    split at h2
    · rename_i hc
      simp only [Option.some.injEq] at h2
      exact Or.inr (Or.inr (Or.inr (Or.inr ⟨rfl, hc, h2.symm⟩)))
    · simp at h2

/-- A step never moves to an earlier phase. -/
theorem step_rank (s s1 : Lifecycle) (e : Event) (h : step s e = some s1) :
    s.phase.rank ≤ s1.phase.rank := by
  cases s with
  | Running a =>
    rcases step_running a e s1 h with ⟨_, rfl⟩ | ⟨_, n, _, rfl⟩ | ⟨_, _, rfl⟩ | ⟨_, rfl⟩ |
      ⟨d, _, _, rfl⟩ <;> simp [Lifecycle.phase, Phase.rank]
  | Draining a t =>
    rcases step_draining a t e s1 h with ⟨_, n, _, rfl⟩ | ⟨_, _, rfl⟩ | ⟨_, rfl⟩ |
      ⟨d, _, _, rfl⟩ | ⟨_, _, rfl⟩ <;> simp [Lifecycle.phase, Phase.rank]
  | Stopped c => cases e <;> simp [step] at h

/-- A run never moves to an earlier phase. -/
theorem run_rank (es : List Event) (s s1 : Lifecycle) (h : run s es = some s1) :
    s.phase.rank ≤ s1.phase.rank := by
  induction es generalizing s with
  | nil =>
    simp only [run, Option.some.injEq] at h
    subst h
    exact Nat.le_refl _
  | cons e es ih =>
    simp only [run] at h
    cases hs : step s e with
    | none => simp [hs] at h
    | some s2 =>
      simp only [hs] at h
      exact Nat.le_trans (step_rank s s2 e hs) (ih s2 h)

/-- Phases with the same rank are the same phase. -/
theorem phase_of_rank (p q : Phase) (h : p.rank = q.rank) : p = q := by
  cases p <;> cases q <;> simp [Phase.rank] at h <;> rfl

/-- C10, as stated, fails: a request in flight whose `Get` fails ends the
process through `log.Fatal` with status 1, while the server is running and
while it is draining. So the interrupt is not the only way out of `Running`,
`Draining` is not the only phase that follows it, and `Draining` is also left
with requests in flight, before the deadline and with a status other than 0. -/
theorem lifecycle_fatal_leaves_running :
    step (Lifecycle.Running 1) Event.requestFatal = some (Lifecycle.Stopped 1) ∧
    ¬ (∀ (a : Nat) (e : Event) (s1 : Lifecycle),
        step (Lifecycle.Running a) e = some s1 → s1.phase ≠ Phase.running →
          e = Event.interrupt ∧ s1.phase = Phase.draining) ∧
    step (Lifecycle.Draining 1 0) Event.requestFatal = some (Lifecycle.Stopped 1) ∧
    ¬ (∀ (a : Nat) (t : Duration) (e : Event) (s1 : Lifecycle),
        step (Lifecycle.Draining a t) e = some s1 → s1.phase ≠ Phase.draining →
          (a = 0 ∨ shutdownTimeout ≤ t) ∧ s1 = Lifecycle.Stopped 0) := by
  refine ⟨rfl, fun h => ?_, rfl, fun h => ?_⟩
  · have := h 1 Event.requestFatal (Lifecycle.Stopped 1) rfl (by decide)
    exact absurd this.1 (by decide)
  · have := h 1 0 Event.requestFatal (Lifecycle.Stopped 1) rfl (by decide)
    exact absurd this.2 (by decide)

/-- C10, amended: the process leaves `Running` only for `Draining`, on the
interrupt signal, or for `Stopped` with status 1, when a request in flight
fails to resolve credentials. It leaves `Draining` only for `Stopped`: with
status 0 when `Shutdown` returns, which it does only once no request is in
flight or the 5-second deadline has passed, or with status 1 on such a failure.
The interrupt is always accepted while running and `Shutdown` always returns
in its two cases; nothing follows `Stopped`; and a phase once left is never
entered again. -/
theorem lifecycle_transitions :
    (∀ (a : Nat) (e : Event) (s1 : Lifecycle),
      step (Lifecycle.Running a) e = some s1 → s1.phase ≠ Phase.running →
        (e = Event.interrupt ∧ s1 = Lifecycle.Draining a 0) ∨
        (e = Event.requestFatal ∧ 0 < a ∧ s1 = Lifecycle.Stopped 1)) ∧
    (∀ (a : Nat) (t : Duration) (e : Event) (s1 : Lifecycle),
      step (Lifecycle.Draining a t) e = some s1 → s1.phase ≠ Phase.draining →
        (e = Event.shutdownReturns ∧ (a = 0 ∨ shutdownTimeout ≤ t) ∧
          s1 = Lifecycle.Stopped 0) ∨
        (e = Event.requestFatal ∧ 0 < a ∧ s1 = Lifecycle.Stopped 1)) ∧
    (∀ a : Nat, step (Lifecycle.Running a) Event.interrupt = some (Lifecycle.Draining a 0)) ∧
    (∀ t : Duration,
      step (Lifecycle.Draining 0 t) Event.shutdownReturns = some (Lifecycle.Stopped 0)) ∧
    (∀ (a : Nat) (t : Duration), shutdownTimeout ≤ t →
      step (Lifecycle.Draining a t) Event.shutdownReturns = some (Lifecycle.Stopped 0)) ∧
    (∀ (c : Nat) (e : Event), step (Lifecycle.Stopped c) e = none) ∧
    (∀ (s s1 s2 : Lifecycle) (es1 es2 : List Event),
      run s es1 = some s1 → run s1 es2 = some s2 → s1.phase ≠ s.phase → s2.phase ≠ s.phase) := by
  refine ⟨?_, ?_, ?_, ?_, ?_, ?_, ?_⟩
  · intro a e s1 h hp
    rcases step_running a e s1 h with ⟨_, rfl⟩ | ⟨_, n, _, rfl⟩ | ⟨he, ha, rfl⟩ | ⟨he, rfl⟩ |
      ⟨d, _, _, rfl⟩
    · exact absurd rfl hp
    · exact absurd rfl hp
    · exact Or.inr ⟨he, ha, rfl⟩
    · exact Or.inl ⟨he, rfl⟩
    · exact absurd rfl hp
  · intro a t e s1 h hp
    rcases step_draining a t e s1 h with ⟨_, n, _, rfl⟩ | ⟨he, ha, rfl⟩ | ⟨_, rfl⟩ |
      ⟨d, _, _, rfl⟩ | ⟨he, hc, rfl⟩
    · exact absurd rfl hp
    · exact Or.inr ⟨he, ha, rfl⟩
    · exact absurd rfl hp
    · exact absurd rfl hp
    · exact Or.inl ⟨he, hc, rfl⟩
  · intro a; cases a <;> rfl
  · intro t; simp [step]
  · intro a t ht; cases a <;> simp [step, ht]
  · intro c e; cases e <;> rfl
  · intro s s1 s2 es1 es2 h1 h2 hne heq
    have r1 := run_rank es1 s s1 h1
    have r2 := run_rank es2 s1 s2 h2
    rw [heq] at r2
    exact hne (phase_of_rank _ _ (Nat.le_antisymm r2 r1))

end CredProxy
